import Mathlib

/-!
# gst-fifosink: the vmsplice writer and the FIFO handle

A shallow embedding of `src/gstfifosink.c`.

* The transfer primitive `vmsplice(2)` is an environment: the writer is run against a list of
  responders, one per call, each mapping the entries submitted in that call to the call's
  `(ret, errno)`.  A list of fixed results is the special case of constant responders.  When the
  list is exhausted the writer is still waiting for its next call (`Outcome.pending`).
* A pointer is the byte region it points into together with an offset; the bytes a call moves
  into the pipe are read through the submitted `(iov_base, iov_len)` pairs.
* Integer quantities are natural numbers and integers.  The C types (`guint8` for the memory
  count of one buffer, which GStreamer caps at 16; `guint` for entry counts; `gsize`/`gssize`
  for byte counts of mapped memory; `guint64` for the byte counter) are wide enough for every
  value that arises, so no wrap-around is modelled there.  The one value read from outside,
  the `int` result of `atoi`, is converted as the C library does.
* Calls into the environment (`vmsplice`, `gst_memory_unmap`, `fcntl`) are recorded in the
  result as ghost traces so that statements can speak about them.
-/

set_option autoImplicit false

namespace FifoSink

/-! ## Data model -/

/-- One byte of payload. -/
abbrev Byte := Nat

/-- A C pointer: the byte region it points into and its offset from the start of the region. -/
structure Ptr where
  region : List Byte
  off : Nat
deriving DecidableEq

/-- Mirror of `struct iovec`. -/
structure iovec where
  iov_base : Ptr
  iov_len : Nat
deriving DecidableEq

/-- A `GstMemory` segment: `id` stands for the address of the object, `data` for the bytes a
read mapping exposes, `mappable` for whether `gst_memory_map (mem, .., GST_MAP_READ)` succeeds. -/
structure GstMemory where
  id : Nat
  data : List Byte
  mappable : Bool
deriving DecidableEq

/-- Mirror of `GstMapInfo`, with the fields the sink uses; `memory = none` is `NULL`. -/
structure GstMapInfo where
  memory : Option Nat
  data : Ptr
  size : Nat
deriving DecidableEq

/-- A `GstBuffer` is its sequence of memories (`gst_buffer_peek_memory (buf, i)`). -/
abbrev GstBuffer := List GstMemory

/-- Value of `gst_buffer_n_memory (buf)`. -/
def gst_buffer_n_memory (buf : GstBuffer) : Nat := buf.length

/-- GStreamer library call `gst_memory_map (mem, &info, GST_MAP_READ)` (not part of this
repository).  On success `info` describes the mapping; on failure the library clears `info`. -/
def gst_memory_map (mem : GstMemory) : Bool × GstMapInfo :=
  if mem.mappable then
    (true, { memory := some mem.id, data := ⟨mem.data, 0⟩, size := mem.data.length })
  else
    (false, { memory := none, data := ⟨[], 0⟩, size := 0 })

/-- The string literal `""` used as the base of the view of an unmappable segment. -/
def empty_string : Ptr := ⟨[0], 0⟩

/-- Result of one `vmsplice` call: the return value and the value of `errno` after it. -/
structure SysResult where
  ret : Int
  errno : Nat
deriving DecidableEq

/-- Linux value of `EINTR`. -/
def EINTR : Nat := 4
/-- Linux value of `EAGAIN`. -/
def EAGAIN : Nat := 11
/-- Linux value of `EWOULDBLOCK` (the same number as `EAGAIN`). -/
def EWOULDBLOCK : Nat := 11
/-- Linux value of `ENOSPC`. -/
def ENOSPC : Nat := 28

/-- The behaviour of the transfer primitive at one call, as a function of the submitted
entries `vecs[0 .. n)`. -/
abbrev Responder := List iovec → SysResult

/-- `GstFlowReturn`, the two values the sink returns. -/
inductive GstFlowReturn where
  | GST_FLOW_OK
  | GST_FLOW_ERROR
deriving DecidableEq

/-- The resource error posted with `GST_ELEMENT_ERROR (sink, RESOURCE, ..)`. -/
inductive ResourceError where
  | NO_SPACE_LEFT
  | WRITE (errno : Nat)
deriving DecidableEq

/-- Ways in which the C code stops without returning. -/
inductive Abort where
  /-- `vecs[0]` is read when no entry is left in the vector array. -/
  | out_of_bounds
  /-- A `g_assert` fails. -/
  | assertion_failed
deriving DecidableEq

/-- How a run of a function against a finite list of responders ends. -/
inductive Outcome where
  | returned (flow : GstFlowReturn)
  | aborted (why : Abort)
  /-- Every responder has been used and the code is about to call the primitive again. -/
  | pending
deriving DecidableEq

/-! ## `fill_vectors` -/

/-- One iteration of the loop in `fill_vectors`: map the memory and build its view. -/
def fill_entry (mem : GstMemory) : iovec × GstMapInfo :=
  let m := gst_memory_map mem
  if m.1 then (⟨m.2.data, m.2.size⟩, m.2) else (⟨empty_string, 0⟩, m.2)

/-- The `for` loop of `fill_vectors` over the memories of the buffer: the views, the map infos
and the accumulated `size`. -/
def fill_loop : List GstMemory → List iovec × List GstMapInfo × Nat
  | [] => ([], [], 0)
  | mem :: rest =>
    let e := fill_entry mem
    let r := fill_loop rest
    (e.1 :: r.1, e.2 :: r.2.1, e.1.iov_len + r.2.2)

/-- Model of `fill_vectors (vecs, maps, n, buf)`; `none` when
`g_assert (gst_buffer_n_memory (buf) == n)` fails. -/
def fill_vectors (n : Nat) (buf : GstBuffer) : Option (List iovec × List GstMapInfo × Nat) :=
  if gst_buffer_n_memory buf = n then some (fill_loop buf) else none

/-! ## `gst_writev_buffers` -/

/-- The "populate output vectors" loop of `gst_writev_buffers`: `buffers[i]` is filled with
count `mem_nums[i]`; `none` when an assertion of `fill_vectors` fails (or `mem_nums` is shorter
than `buffers`, which no caller does). -/
def populate : List GstBuffer → List Nat → Option (List iovec × List GstMapInfo × Nat)
  | [], _ => some ([], [], 0)
  | _ :: _, [] => none
  | b :: bs, n :: ns =>
    match fill_vectors n b, populate bs ns with
    | some f, some r => some (f.1 ++ r.1, f.2.1 ++ r.2.1, f.2.2 + r.2.2)
    | _, _ => none

/-- The variables of the write loop: `vecs` is the vector array from the current `vecs`
pointer to its end, `n_vecs` the entry count, `left` the remaining bytes, `bytes_written` the
value of `*bytes_written`. -/
structure LoopState where
  vecs : List iovec
  n_vecs : Nat
  left : Int
  bytes_written : Nat
deriving DecidableEq

/-- The loop "skip vectors that have been written in full":
`while ((size_t) ret >= vecs[0].iov_len) { ret -= ..; left -= ..; ++vecs; --n_vecs; }`.
`none` when `vecs[0]` is read past the end of the array. -/
def skip_written : Int → Int → List iovec → Nat → Option (Int × Int × List iovec × Nat)
  | _, _, [], _ => none
  | ret, left, v :: vs, n_vecs =>
    if ret ≥ (v.iov_len : Int) then
      skip_written (ret - v.iov_len) (left - v.iov_len) vs (n_vecs - 1)
    else some (ret, left, v :: vs, n_vecs)

/-- What one pass through the body of the outer `do .. while (left > 0)` leads to. -/
inductive Step where
  /-- The primitive is called again (either loop condition holds). -/
  | cont (s : LoopState)
  /-- The loop is left by `break` or because `left > 0` fails. -/
  | done (s : LoopState)
  /-- The error branch: post the error, unmap, `return GST_FLOW_ERROR`. -/
  | fail (e : ResourceError) (s : LoopState)
  /-- The process is stopped (stray read or failed assertion). -/
  | abort (why : Abort) (s : LoopState)
deriving DecidableEq

/-- The loop condition `while (left > 0)`. -/
def while_left (s : LoopState) : Step :=
  if s.left > 0 then .cont s else .done s

/-- Processing of the result `r` of one `vmsplice` call in state `s`: the rest of the body of
the outer loop and its condition.  The cast in `(size_t) ret >= vecs[0].iov_len` is applied to
a non-negative `ret` only. -/
def loop_body (s : LoopState) (r : SysResult) : Step :=
  -- `do { ret = vmsplice (fd, vecs, n, 0); } while (ret < 0 && errno == EINTR);`
  if r.ret < 0 ∧ r.errno = EINTR then .cont s
  else
    -- `if (ret > 0) { if (bytes_written) *bytes_written += ret; }`
    let s1 : LoopState :=
      if r.ret > 0 then { s with bytes_written := s.bytes_written + r.ret.toNat } else s
    -- `if (ret == left) break;`
    if r.ret = s.left then .done s1
    -- `if (ret < 0 && (errno == EAGAIN || errno == EWOULDBLOCK)) { /* try again */ }`
    else if r.ret < 0 ∧ (r.errno = EAGAIN ∨ r.errno = EWOULDBLOCK) then while_left s1
    -- `else if (ret < 0) { switch (errno) ..; unmap; return GST_FLOW_ERROR; }`
    else if r.ret < 0 then
      .fail (if r.errno = ENOSPC then .NO_SPACE_LEFT else .WRITE r.errno) s1
    -- `else if (ret < left) { skip; g_assert (n_vecs > 0); if (ret > 0) { adjust } }`
    else if r.ret < s.left then
      match skip_written r.ret s.left s.vecs s.n_vecs with
      | none => .abort .out_of_bounds s1
      | some (ret, left, vecs, n_vecs) =>
        if n_vecs > 0 then
          if ret > 0 then
            match vecs with
            | [] => .abort .out_of_bounds s1
            | v :: vs =>
              -- `vecs[0].iov_len -= ret; vecs[0].iov_base += ret; left -= ret;`
              while_left
                { vecs := ⟨⟨v.iov_base.region, v.iov_base.off + ret.toNat⟩,
                            v.iov_len - ret.toNat⟩ :: vs,
                  n_vecs := n_vecs, left := left - ret, bytes_written := s1.bytes_written }
          else
            while_left
              { vecs := vecs, n_vecs := n_vecs, left := left,
                bytes_written := s1.bytes_written }
        else .abort .assertion_failed s1
    else while_left s1

/-- Ghost record of one `vmsplice (fd, vecs, n, 0)` call: the loop state in which it was made,
the count `n` passed and its result. -/
structure Call where
  state : LoopState
  n : Nat
  result : SysResult
deriving DecidableEq

/-- The entries submitted in a call: `vecs[0 .. n)`. -/
def Call.submitted (c : Call) : List iovec := c.state.vecs.take c.n

/-- A run of the write loop. -/
structure LoopRun where
  exit : Outcome
  posted : Option ResourceError
  state : LoopState
  calls : List Call
deriving DecidableEq

/-- The count passed to the primitive: `int n = (n_vecs > IOV_MAX) ? IOV_MAX : n_vecs;`. -/
def chunk (IOV_MAX : Nat) (s : LoopState) : Nat :=
  if s.n_vecs > IOV_MAX then IOV_MAX else s.n_vecs

/-- The write loop of `gst_writev_buffers` run against the responders `fs`; `IOV_MAX` is the
constant of `<limits.h>`. -/
def write_loop (IOV_MAX : Nat) : List Responder → LoopState → LoopRun
  | [], s => { exit := .pending, posted := none, state := s, calls := [] }
  | f :: fs, s =>
    let n := chunk IOV_MAX s
    let r := f (s.vecs.take n)
    let c : Call := { state := s, n := n, result := r }
    match loop_body s r with
    | .cont s1 =>
      let run := write_loop IOV_MAX fs s1
      { run with calls := c :: run.calls }
    | .done s1 =>
      { exit := .returned .GST_FLOW_OK, posted := none, state := s1, calls := [c] }
    | .fail e s1 =>
      { exit := .returned .GST_FLOW_ERROR, posted := some e, state := s1, calls := [c] }
    | .abort why s1 =>
      { exit := .aborted why, posted := none, state := s1, calls := [c] }

/-- What `gst_writev_buffers` has done when it stops. -/
structure WriteRun where
  outcome : Outcome
  posted : Option ResourceError
  bytes_written : Nat
  calls : List Call
  /-- First arguments of the `gst_memory_unmap` calls, in call order. -/
  unmap_calls : List (Option Nat)
  /-- The loop variables when the function stops, if the write loop was entered. -/
  state : Option LoopState
deriving DecidableEq

/-- Model of `gst_writev_buffers (sink, fd, fdset, buffers, num_buffers, mem_nums,
total_mem_num, bytes_written)` run against the responders `fs`; `bytes_written` is the initial
value of `*bytes_written`. -/
def gst_writev_buffers (IOV_MAX : Nat) (fs : List Responder) (buffers : List GstBuffer)
    (mem_nums : List Nat) (total_mem_num : Nat) (bytes_written : Nat) : WriteRun :=
  match populate buffers mem_nums with
  | none =>
    { outcome := .aborted .assertion_failed, posted := none, bytes_written := bytes_written,
      calls := [], unmap_calls := [], state := none }
  | some (vecs, map_infos, size) =>
    let run := write_loop IOV_MAX fs
      { vecs := vecs, n_vecs := total_mem_num, left := size, bytes_written := bytes_written }
    { outcome := run.exit, posted := run.posted, bytes_written := run.state.bytes_written,
      calls := run.calls,
      unmap_calls :=
        match run.exit with
        | .returned _ => (map_infos.take total_mem_num).map (fun m => m.memory)
        | _ => [],
      state := some run.state }

/-! ## The sink object and the render entry points -/

/-- Mirror of `struct _GstFifoSink` (without the parent instance); `none` is `NULL`. -/
structure GstFifoSink where
  filename : Option String
  uri : Option String
  fd : Int
  bytes_written : Nat
deriving DecidableEq

/-- State set up by `gst_fifosink_init`. -/
def gst_fifosink_init : GstFifoSink :=
  { filename := none, uri := none, fd := -1, bytes_written := 0 }

/-- What a render entry point has done when it stops. -/
structure RenderRun where
  outcome : Outcome
  sink : GstFifoSink
  posted : Option ResourceError
  calls : List Call
  unmap_calls : List (Option Nat)
deriving DecidableEq

/-- Model of `gst_fifosink_render_buffers`: a local counter starting at 0 is handed to
`gst_writev_buffers` and added to `sink->bytes_written` afterwards. -/
def gst_fifosink_render_buffers (IOV_MAX : Nat) (fs : List Responder) (sink : GstFifoSink)
    (buffers : List GstBuffer) (mem_nums : List Nat) (total_mems : Nat) : RenderRun :=
  let w := gst_writev_buffers IOV_MAX fs buffers mem_nums total_mems 0
  { outcome := w.outcome,
    sink :=
      match w.outcome with
      | .returned _ => { sink with bytes_written := sink.bytes_written + w.bytes_written }
      | _ => sink,
    posted := w.posted, calls := w.calls, unmap_calls := w.unmap_calls }

/-- Model of `gst_fifosink_render` for one buffer. -/
def gst_fifosink_render (IOV_MAX : Nat) (fs : List Responder) (sink : GstFifoSink)
    (buffer : GstBuffer) : RenderRun :=
  let n_mem := gst_buffer_n_memory buffer
  if n_mem > 0 then gst_fifosink_render_buffers IOV_MAX fs sink [buffer] [n_mem] n_mem
  else
    { outcome := .returned .GST_FLOW_OK, sink := sink, posted := none, calls := [],
      unmap_calls := [] }

/-- Model of `gst_fifosink_render_list` for a buffer list. -/
def gst_fifosink_render_list (IOV_MAX : Nat) (fs : List Responder) (sink : GstFifoSink)
    (buffer_list : List GstBuffer) : RenderRun :=
  let num_buffers := buffer_list.length
  if num_buffers = 0 then
    { outcome := .returned .GST_FLOW_OK, sink := sink, posted := none, calls := [],
      unmap_calls := [] }
  else
    let mem_nums := buffer_list.map gst_buffer_n_memory
    let total_mems := mem_nums.sum
    gst_fifosink_render_buffers IOV_MAX fs sink buffer_list mem_nums total_mems

/-! ## Location property, open and close -/

/-- Model of `gst_file_sink_set_location`; `to_uri` stands for the library function
`gst_filename_to_uri (location, NULL)`.  Returns the `gboolean` and the sink afterwards. -/
def gst_file_sink_set_location (to_uri : String → Option String) (sink : GstFifoSink)
    (location : Option String) : Bool × GstFifoSink :=
  if sink.fd > 2 then (false, sink)
  else
    match location with
    | some l => (true, { sink with filename := some l, uri := to_uri l })
    | none => (true, { sink with filename := none, uri := none })

/-- The answers of the operating system during one `gst_fifosink_open_file`. -/
structure OpenEnv where
  /-- Return value of `open (sink->filename, O_WRONLY)`. -/
  open_ret : Int
  /-- Return value of `fstat (sink->fd, &st)`. -/
  fstat_ret : Int
  /-- Value of `S_ISFIFO (st.st_mode)`. -/
  is_fifo : Bool
  /-- Content of `/proc/sys/fs/pipe-max-size`; `none` when `fopen` returns `NULL`. -/
  pipe_max_size : Option (List Char)

/-- The C library predicate `isspace` in the C locale. -/
def isspace (c : Char) : Bool := c.toNat = 32 || (9 ≤ c.toNat && c.toNat ≤ 13)

/-- The C library predicate `isdigit`. -/
def isdigit (c : Char) : Bool := 48 ≤ c.toNat && c.toNat ≤ 57

/-- The digit loop of `atoi`: accumulate leading decimal digits. -/
def atoi_digits : Nat → List Char → Nat
  | acc, [] => acc
  | acc, c :: cs => if isdigit c then atoi_digits (acc * 10 + (c.toNat - 48)) cs else acc

/-- Largest value of `long` (64 bits). -/
def LONG_MAX : Int := 9223372036854775807

/-- Smallest value of `long` (64 bits). -/
def LONG_MIN : Int := -9223372036854775808

/-- Largest value of `int` (32 bits). -/
def INT_MAX : Int := 2147483647

/-- The result of `strtol` for a sign and the value of the digits read: the signed value,
replaced by `LONG_MAX` or `LONG_MIN` when it does not fit a `long`. -/
def strtol_value (negative : Bool) (digits : Nat) : Int :=
  if negative then max (-(digits : Int)) LONG_MIN else min (digits : Int) LONG_MAX

/-- Conversion `(int) v` of a `long` to the 32-bit `int`: the value modulo `2 ^ 32` in the
range of `int`. -/
def int_of_long (v : Int) : Int := (v + 2147483648) % 4294967296 - 2147483648

/-- The C library function `atoi`, which is `(int) strtol (nptr, NULL, 10)`: skip white space,
read an optional sign and the leading decimal digits (0 when there are none), saturate to
`long` and convert to `int`. -/
def atoi (s : List Char) : Int :=
  match s.dropWhile isspace with
  | [] => 0
  | c :: cs =>
    if c = '-' then int_of_long (strtol_value true (atoi_digits 0 cs))
    else if c = '+' then int_of_long (strtol_value false (atoi_digits 0 cs))
    else int_of_long (strtol_value false (atoi_digits 0 (c :: cs)))

/-- Characters stored by `fgets` when at most `k` characters fit: up to and including the
first newline. -/
def fgets_line : Nat → List Char → List Char
  | 0, _ => []
  | _, [] => []
  | k + 1, c :: cs => if c.toNat = 10 then [c] else c :: fgets_line k cs

/-- The C library function `fgets (buf, size, f)` on a stream with the given remaining
content: `none` (`NULL`) when no character can be read. -/
def fgets (size : Nat) (content : List Char) : Option (List Char) :=
  if content = [] then none else some (fgets_line (size - 1) content)

/-- Why `gst_fifosink_open_file` returned `FALSE`. -/
inductive OpenError where
  /-- `GST_ELEMENT_ERROR (sink, RESOURCE, NOT_FOUND, ..)`. -/
  | NOT_FOUND
  /-- `GST_ELEMENT_ERROR (sink, RESOURCE, OPEN_WRITE, ..)`. -/
  | OPEN_WRITE
  /-- `GST_ERROR_OBJECT (sink, "%s is not fifo.", ..)`. -/
  | NOT_FIFO
deriving DecidableEq

/-- What `gst_fifosink_open_file` has done when it returns. -/
structure OpenRun where
  ok : Bool
  sink : GstFifoSink
  error : Option OpenError
  /-- Third argument of the `fcntl (sink->fd, F_SETPIPE_SZ, pipe_size)` call, if made. -/
  setpipe_sz : Option Int
deriving DecidableEq

/-- The value of the `int pipe_size` when `fcntl` is called. -/
def pipe_size_request (env : OpenEnv) : Int :=
  match env.pipe_max_size with
  | none => 1024 * 1024
  | some content =>
    match fgets 128 content with
    | some buf => atoi buf
    | none => 1024 * 1024

/-- Model of `gst_fifosink_open_file`. -/
def gst_fifosink_open_file (env : OpenEnv) (sink : GstFifoSink) : OpenRun :=
  if sink.filename = none ∨ sink.filename = some "" then
    { ok := false, sink := sink, error := some .NOT_FOUND, setpipe_sz := none }
  else
    let fd := env.open_ret
    if fd < 0 then
      { ok := false, sink := sink, error := some .OPEN_WRITE, setpipe_sz := none }
    else
      let sink1 := { sink with fd := fd }
      if env.fstat_ret = 0 ∧ env.is_fifo = true then
        { ok := true, sink := sink1, error := none,
          setpipe_sz := some (pipe_size_request env) }
      else
        { ok := false, sink := sink1, error := some .NOT_FIFO, setpipe_sz := none }

/-- Model of `gst_fifosink_close_file`: the sink afterwards and the descriptor passed to
`close`, if any. -/
def gst_fifosink_close_file (sink : GstFifoSink) : GstFifoSink × Option Int :=
  if sink.fd > 0 then ({ sink with fd := -1 }, some sink.fd) else (sink, none)

/-- Model of `gst_fifosink_start`. -/
def gst_fifosink_start (env : OpenEnv) (sink : GstFifoSink) : OpenRun :=
  gst_fifosink_open_file env { sink with bytes_written := 0 }

/-- Model of `gst_fifosink_stop`. -/
def gst_fifosink_stop (sink : GstFifoSink) : Bool × GstFifoSink :=
  (true, (gst_fifosink_close_file sink).1)

/-! ## Vocabulary of the statements -/

/-- Total of the lengths of a list of entries. -/
def lens : List iovec → Nat
  | [] => 0
  | v :: vs => v.iov_len + lens vs

/-- The bytes an entry denotes: `iov_len` bytes starting at `iov_base`. -/
def iovec.bytes (v : iovec) : List Byte :=
  (v.iov_base.region.drop v.iov_base.off).take v.iov_len

/-- The byte stream a list of entries denotes. -/
def stream : List iovec → List Byte
  | [] => []
  | v :: vs => v.bytes ++ stream vs

/-- An entry lies inside the region its base points into. -/
def iovec.valid (v : iovec) : Prop :=
  v.iov_base.off + v.iov_len ≤ v.iov_base.region.length

/-- The bytes the pipe takes in a call: the first `ret` bytes of the submitted entries. -/
def Call.accepted (c : Call) : List Byte :=
  (stream c.submitted).take c.result.ret.toNat

/-- Everything the pipe has received over a sequence of calls. -/
def pipe : List Call → List Byte
  | [] => []
  | c :: cs => c.accepted ++ pipe cs

/-- Number of bytes accepted over a sequence of calls (a failing call accepts none). -/
def accepted_total : List Call → Nat
  | [] => 0
  | c :: cs => c.result.ret.toNat + accepted_total cs

/-- A non-negative result is at most the total length of the entries submitted in the call. -/
def Call.sane (c : Call) : Prop :=
  0 ≤ c.result.ret → c.result.ret ≤ (lens c.submitted : Int)

instance (c : Call) : Decidable c.sane := by
  unfold Call.sane; infer_instance

/-- The error codes the writer recovers from by calling again. -/
def transient (e : Nat) : Prop := e = EINTR ∨ e = EAGAIN ∨ e = EWOULDBLOCK

instance (e : Nat) : Decidable (transient e) := by
  unfold transient; infer_instance

/-- The call failed with an error code that is not transient. -/
def Call.fatal (c : Call) : Prop := c.result.ret < 0 ∧ ¬ transient c.result.errno

instance (c : Call) : Decidable c.fatal := by
  unfold Call.fatal; infer_instance

/-- The loop invariant: the window's lengths add up to `left`, `n_vecs` counts the window and
every entry lies inside its region. -/
structure Inv (s : LoopState) : Prop where
  sum_eq : (lens s.vecs : Int) = s.left
  count_eq : s.n_vecs = s.vecs.length
  valid : ∀ v ∈ s.vecs, v.valid

/-- The state a step leads to. -/
def Step.state : Step → LoopState
  | .cont s => s
  | .done s => s
  | .fail _ s => s
  | .abort _ s => s

/-- Entries skipped in full by `r` accepted bytes: what is left of `r` and of the window. -/
def skipN : Nat → List iovec → Nat × List iovec
  | r, [] => (r, [])
  | r, v :: vs => if v.iov_len ≤ r then skipN (r - v.iov_len) vs else (r, v :: vs)

/-- The window after `r` accepted bytes: entries written in full are dropped and the front
entry is advanced by what remains. -/
def advance (r : Nat) (w : List iovec) : List iovec :=
  match skipN r w with
  | (_, []) => []
  | (k, v :: vs) =>
    if 0 < k then ⟨⟨v.iov_base.region, v.iov_base.off + k⟩, v.iov_len - k⟩ :: vs else v :: vs

/-- The bytes of a segment that reach its view: all of them when it maps, none otherwise. -/
def mapped_bytes (m : GstMemory) : List Byte := if m.mappable then m.data else []

/-- All memories of a batch in buffer order, then segment order. -/
def segments (buffers : List GstBuffer) : List GstMemory := buffers.flatten

/-- Concatenation of the contents of the successfully mapped segments of a batch. -/
def mapped_stream (buffers : List GstBuffer) : List Byte :=
  (segments buffers).flatMap mapped_bytes

/-- Total length of the successfully mapped segments of a batch. -/
def mapped_size (buffers : List GstBuffer) : Nat :=
  ((segments buffers).map (fun m => (mapped_bytes m).length)).sum

/-- Concatenation of all segment contents of a batch, mapped or not. -/
def batch_stream (buffers : List GstBuffer) : List Byte :=
  (segments buffers).flatMap (fun m => m.data)

/-- Sum over the buffers of the sum of the segment lengths. -/
def batch_size (buffers : List GstBuffer) : Nat :=
  (buffers.map (fun b => (b.map (fun m => m.data.length)).sum)).sum

/-- Identities of the successfully mapped segments, in order. -/
def mapped_ids (buffers : List GstBuffer) : List Nat :=
  ((segments buffers).filter (fun m => m.mappable)).map (fun m => m.id)

/-- The segments handed to the library for unmapping: the non-`NULL` first arguments of the
`gst_memory_unmap` calls (the library rejects a call whose memory is `NULL`). -/
def unmapped_segments (calls : List (Option Nat)) : List Nat := calls.filterMap id

/-- The memory counts the render entry points pass as `mem_nums`. -/
def mem_nums_of (buffers : List GstBuffer) : List Nat := buffers.map gst_buffer_n_memory

/-- `gst_writev_buffers` as the render entry points call it for a batch. -/
def writev (IOV_MAX : Nat) (fs : List Responder) (buffers : List GstBuffer)
    (bytes_written : Nat) : WriteRun :=
  gst_writev_buffers IOV_MAX fs buffers (mem_nums_of buffers) (mem_nums_of buffers).sum
    bytes_written

/-- A responder that answers with a fixed result. -/
def answer (ret : Int) (errno : Nat) : Responder := fun _ => ⟨ret, errno⟩

/-- The responder that accepts every submitted byte. -/
def accept_all : Responder := fun vs => ⟨lens vs, 0⟩

/-- The resource error the writer posts for an error code. -/
def classify (errno : Nat) : ResourceError :=
  if errno = ENOSPC then .NO_SPACE_LEFT else .WRITE errno

/-- What holds of every run of the write loop that starts in a state `s` satisfying the
invariant. -/
structure RunInv (s : LoopState) (run : LoopRun) : Prop where
  no_abort : ∀ why, run.exit ≠ .aborted why
  calls_inv : ∀ c ∈ run.calls, Inv c.state ∧ c.state.vecs.length ≤ s.vecs.length
  state_inv : Inv run.state
  state_le : run.state.vecs.length ≤ s.vecs.length
  shrinking : run.calls.Pairwise (fun a b => b.state.vecs.length ≤ a.state.vecs.length)
  final_le : ∀ c ∈ run.calls, run.state.vecs.length ≤ c.state.vecs.length
  error_last : run.exit = .returned .GST_FLOW_ERROR →
    ∃ c, run.calls.getLast? = some c ∧ c.fatal ∧ run.posted = some (classify c.result.errno)
  pending_left : run.exit = .pending → 0 < s.left → 0 < run.state.left

/-- How a run of the write loop that starts in state `s` accounts for the bytes, when the
results of its calls are sane. -/
structure RunBytes (s : LoopState) (run : LoopRun) : Prop where
  ok_pipe : run.exit = .returned .GST_FLOW_OK → pipe run.calls = stream s.vecs
  ok_count : run.exit = .returned .GST_FLOW_OK →
    (run.state.bytes_written : Int) = s.bytes_written + s.left
  other_pipe : run.exit ≠ .returned .GST_FLOW_OK →
    pipe run.calls ++ stream run.state.vecs = stream s.vecs
  other_count : run.exit ≠ .returned .GST_FLOW_OK →
    (run.state.bytes_written : Int) + run.state.left = s.bytes_written + s.left

/-- The state in which the write loop starts for a batch. -/
def init_state (buffers : List GstBuffer) (bytes_written : Nat) : LoopState :=
  { vecs := (fill_loop (segments buffers)).1, n_vecs := (mem_nums_of buffers).sum,
    left := (fill_loop (segments buffers)).2.2, bytes_written := bytes_written }

/-! ## Batches and examples -/

/-- A buffer batch as the pipeline hands it to the sink: one buffer (`render`) or a buffer
list (`render_list`). -/
inductive Batch where
  | single (buffer : GstBuffer)
  | list (buffer_list : List GstBuffer)

/-- The buffers of a batch. -/
def Batch.buffers : Batch → List GstBuffer
  | .single b => [b]
  | .list l => l

/-- Render of a batch through the entry point for its kind. -/
def render (IOV_MAX : Nat) (fs : List Responder) (sink : GstFifoSink) : Batch → RenderRun
  | .single b => gst_fifosink_render IOV_MAX fs sink b
  | .list l => gst_fifosink_render_list IOV_MAX fs sink l

/-- A render that does not reach `gst_writev_buffers`. -/
def idle (sink : GstFifoSink) : RenderRun :=
  { outcome := .returned .GST_FLOW_OK, sink := sink, posted := none, calls := [],
    unmap_calls := [] }

/-- A sink with an open descriptor and 10 bytes written so far. -/
def sink_open : GstFifoSink :=
  { filename := some "f", uri := none, fd := 5, bytes_written := 10 }

/-- A mappable segment with the given bytes. -/
def seg (id : Nat) (data : List Byte) : GstMemory := ⟨id, data, true⟩

/-- A segment whose mapping fails. -/
def bad_seg (id : Nat) (data : List Byte) : GstMemory := ⟨id, data, false⟩

/-- A batch of one buffer whose only segment, of five bytes, cannot be mapped. -/
def batch_unmappable : List GstBuffer := [[bad_seg 1 [1, 2, 3, 4, 5]]]

/-- A batch of two buffers with three mappable segments and one that cannot be mapped. -/
def batch_mixed : List GstBuffer :=
  [[seg 1 [1, 2], bad_seg 2 [9, 9, 9]], [seg 3 [], seg 4 [3, 4, 5]]]

/-- A block of `n` equal bytes. -/
def block (n : Nat) (b : Byte) : List Byte := List.replicate n b

/-- The scenario of the specification: three buffers of 4096, 8192 and 100 bytes. -/
def scenario : List GstBuffer :=
  [[seg 1 (block 4096 1)], [seg 2 (block 8192 2)], [seg 3 (block 100 3)]]

/-- A batch of one buffer whose only segment is empty: nothing to transfer. -/
def batch_empty : List GstBuffer := [[seg 1 []]]

/-- The window the loop goes on with after a call: advanced by the accepted bytes when the
call was short of `left`, unchanged otherwise. -/
def window_after (c : Call) : List iovec :=
  if 0 ≤ c.result.ret ∧ c.result.ret < c.state.left then
    advance c.result.ret.toNat c.state.vecs
  else c.state.vecs

/-- A batch of five one-byte segments in two buffers. -/
def batch_five : List GstBuffer :=
  [[seg 1 [10], seg 2 [20], seg 3 [30]], [seg 4 [40], seg 5 [50]]]

/-- The value of a string of decimal digits. -/
def decimal (ds : List Char) : Nat := ds.foldl (fun a c => a * 10 + (c.toNat - 48)) 0

/-- What follows the white space and the optional sign at the start of a string. -/
def after_sign (s : List Char) : List Char :=
  match s.dropWhile isspace with
  | [] => []
  | c :: cs => if c = '-' ∨ c = '+' then cs else c :: cs

/-- No decimal digit stands where the number should start. -/
def no_number (s : List Char) : Bool :=
  match after_sign s with
  | [] => true
  | c :: _ => !isdigit c

/-- The new-line character. -/
def newline : Char := Char.ofNat 10

/-- A sink with a target path and no descriptor, as after `gst_fifosink_init` and a
`location` set. -/
def sink_named : GstFifoSink :=
  { filename := some "target", uri := some "file:///target", fd := -1, bytes_written := 0 }

/-- The target opens as descriptor 5 and is a regular file. -/
def env_regular_file : OpenEnv :=
  { open_ret := 5, fstat_ret := 0, is_fifo := false, pipe_max_size := none }

/-- The target opens as descriptor 5 and is a FIFO; the pipe-max-size file reads `abc`. -/
def env_malformed : OpenEnv :=
  { open_ret := 5, fstat_ret := 0, is_fifo := true,
    pipe_max_size := some ['a', 'b', 'c', newline] }

/-- The target opens as descriptor 5 and is a FIFO; the pipe-max-size file reads `65536`. -/
def env_fifo : OpenEnv :=
  { open_ret := 5, fstat_ret := 0, is_fifo := true,
    pipe_max_size := some ['6', '5', '5', '3', '6', newline] }

/-- The target opens as descriptor 5 and is a FIFO; the pipe-max-size file reads
`2147483648`, one more than `INT_MAX`. -/
def env_fifo_big : OpenEnv :=
  { open_ret := 5, fstat_ret := 0, is_fifo := true,
    pipe_max_size := some ['2', '1', '4', '7', '4', '8', '3', '6', '4', '8', newline] }

/-- The target opens as descriptor 2 (the standard descriptors were closed) and is a FIFO. -/
def env_fifo_low : OpenEnv :=
  { open_ret := 2, fstat_ret := 0, is_fifo := true, pipe_max_size := none }

/-- A stand-in for `gst_filename_to_uri` on absolute paths. -/
def file_uri (location : String) : Option String := some ("file://" ++ location)

/-! # Theorems -/

/-! ## Entries, lengths and streams -/

theorem lens_append (a b : List iovec) : lens (a ++ b) = lens a + lens b := by
  induction a with
  | nil => simp [lens]
  | cons v vs ih => simp [lens, ih, Nat.add_assoc]

theorem stream_append (a b : List iovec) : stream (a ++ b) = stream a ++ stream b := by
  induction a with
  | nil => simp [stream]
  | cons v vs ih => simp [stream, ih]

theorem bytes_length (v : iovec) (h : v.valid) : v.bytes.length = v.iov_len := by
  unfold iovec.valid at h
  simp [iovec.bytes, List.length_take, List.length_drop]
  omega

theorem stream_length (w : List iovec) (h : ∀ v ∈ w, v.valid) : (stream w).length = lens w := by
  induction w with
  | nil => simp [stream, lens]
  | cons v vs ih =>
    simp only [stream, lens, List.length_append]
    rw [bytes_length v (h v (List.mem_cons_self _ _)),
      ih (fun u hu => h u (List.mem_cons_of_mem _ hu))]

theorem lens_take_le (n : Nat) (w : List iovec) : lens (w.take n) ≤ lens w := by
  have h := lens_append (w.take n) (w.drop n)
  rw [List.take_append_drop] at h
  omega

theorem pipe_append (a b : List Call) : pipe (a ++ b) = pipe a ++ pipe b := by
  induction a with
  | nil => simp [pipe]
  | cons c cs ih => simp [pipe, ih]

theorem accepted_total_append (a b : List Call) :
    accepted_total (a ++ b) = accepted_total a + accepted_total b := by
  induction a with
  | nil => simp [accepted_total]
  | cons c cs ih => simp [accepted_total, ih, Nat.add_assoc]

/-- Taking `r` bytes of the submitted entries is taking `r` bytes of the whole window, as long
as `r` does not exceed what was submitted. -/
theorem take_stream_take (n r : Nat) (w : List iovec) (hv : ∀ v ∈ w, v.valid)
    (hr : r ≤ lens (w.take n)) : (stream (w.take n)).take r = (stream w).take r := by
  have hw : stream w = stream (w.take n) ++ stream (w.drop n) := by
    rw [← stream_append, List.take_append_drop]
  have hl : (stream (w.take n)).length = lens (w.take n) :=
    stream_length _ (fun v hm => hv v (List.mem_of_mem_take hm))
  rw [hw, List.take_append_of_le_length (by omega)]

/-! ## The skip loop -/

theorem skipN_fst_le (r : Nat) (w : List iovec) : (skipN r w).1 ≤ r := by
  induction w generalizing r with
  | nil => simp [skipN]
  | cons v vs ih =>
    unfold skipN
    split
    · have := ih (r - v.iov_len); omega
    · simp

theorem skipN_lens (r : Nat) (w : List iovec) (h : r < lens w) :
    lens (skipN r w).2 + (r - (skipN r w).1) = lens w := by
  induction w generalizing r with
  | nil => simp [lens] at h
  | cons v vs ih =>
    unfold skipN
    split
    · rename_i hle
      simp only [lens] at h ⊢
      have h1 := ih (r - v.iov_len) (by omega)
      have h2 := skipN_fst_le (r - v.iov_len) vs
      omega
    · simp

theorem skipN_head (r : Nat) (w : List iovec) (h : r < lens w) :
    ∃ v vs, (skipN r w).2 = v :: vs ∧ (skipN r w).1 < v.iov_len := by
  induction w generalizing r with
  | nil => simp [lens] at h
  | cons v vs ih =>
    unfold skipN
    split
    · simp only [lens] at h
      exact ih (r - v.iov_len) (by omega)
    · exact ⟨v, vs, rfl, by simpa using (by omega : r < v.iov_len)⟩

theorem skipN_length (r : Nat) (w : List iovec) : (skipN r w).2.length ≤ w.length := by
  induction w generalizing r with
  | nil => simp [skipN]
  | cons v vs ih =>
    unfold skipN
    split
    · have := ih (r - v.iov_len); simp; omega
    · simp

theorem skipN_valid (r : Nat) (w : List iovec) (hv : ∀ v ∈ w, v.valid) :
    ∀ v ∈ (skipN r w).2, v.valid := by
  induction w generalizing r with
  | nil => simp [skipN]
  | cons v vs ih =>
    unfold skipN
    split
    · exact ih (r - v.iov_len) (fun u hu => hv u (List.mem_cons_of_mem _ hu))
    · exact hv

theorem skipN_stream (r : Nat) (w : List iovec) (hv : ∀ v ∈ w, v.valid) (h : r < lens w) :
    stream (skipN r w).2 = (stream w).drop (r - (skipN r w).1) := by
  induction w generalizing r with
  | nil => simp [lens] at h
  | cons v vs ih =>
    unfold skipN
    split
    · rename_i hle
      simp only [lens] at h
      have h1 := ih (r - v.iov_len) (fun u hu => hv u (List.mem_cons_of_mem _ hu)) (by omega)
      have h2 := skipN_fst_le (r - v.iov_len) vs
      have hb := bytes_length v (hv v (List.mem_cons_self _ _))
      have hd : List.drop (r - (skipN (r - v.iov_len) vs).1) v.bytes = [] :=
        List.drop_of_length_le (by omega)
      rw [h1]
      simp only [stream]
      rw [List.drop_append_eq_append_drop, hd, hb]
      simp only [List.nil_append]
      congr 1
      omega
    · simp

/-- The model's skip loop computes `skipN`. -/
theorem skip_written_eq (r : Nat) (left : Int) (w : List iovec) (h : r < lens w) :
    skip_written (r : Int) left w w.length
      = some (((skipN r w).1 : Int), left - ((r : Int) - ((skipN r w).1 : Int)),
          (skipN r w).2, (skipN r w).2.length) := by
  induction w generalizing r left with
  | nil => simp [lens] at h
  | cons v vs ih =>
    simp only [lens] at h
    unfold skip_written skipN
    by_cases hle : v.iov_len ≤ r
    · have hge : (r : Int) ≥ (v.iov_len : Int) := by exact_mod_cast hle
      rw [if_pos hge, if_pos hle]
      have hc : ((r : Int) - (v.iov_len : Int)) = ((r - v.iov_len : Nat) : Int) := by omega
      rw [hc]
      have := ih (r - v.iov_len) (left - (v.iov_len : Int)) (by omega)
      simp only [List.length_cons, Nat.add_sub_cancel]
      rw [this]
      have h2 := skipN_fst_le (r - v.iov_len) vs
      have e : left - (v.iov_len : Int)
          - (((r - v.iov_len : Nat) : Int) - ((skipN (r - v.iov_len) vs).1 : Int))
            = left - ((r : Int) - ((skipN (r - v.iov_len) vs).1 : Int)) := by omega
      rw [e]
    · have hge : ¬ (r : Int) ≥ (v.iov_len : Int) := by omega
      rw [if_neg hge, if_neg hle]
      simp

/-! ## The window after accepted bytes -/

theorem advance_cases (r : Nat) (w : List iovec) (h : r < lens w) :
    ∃ v vs, (skipN r w).2 = v :: vs ∧ (skipN r w).1 < v.iov_len ∧
      advance r w = (if 0 < (skipN r w).1 then
        ⟨⟨v.iov_base.region, v.iov_base.off + (skipN r w).1⟩, v.iov_len - (skipN r w).1⟩ :: vs
        else v :: vs) := by
  obtain ⟨v, vs, h1, h2⟩ := skipN_head r w h
  refine ⟨v, vs, h1, h2, ?_⟩
  unfold advance
  have : skipN r w = ((skipN r w).1, v :: vs) := by rw [← h1]
  rw [this]

theorem bytes_shift (v : iovec) (k : Nat) :
    (⟨⟨v.iov_base.region, v.iov_base.off + k⟩, v.iov_len - k⟩ : iovec).bytes
      = v.bytes.drop k := by
  simp [iovec.bytes, List.drop_take, List.drop_drop]

theorem advance_length (r : Nat) (w : List iovec) (h : r < lens w) :
    (advance r w).length = (skipN r w).2.length := by
  obtain ⟨v, vs, h1, _, h3⟩ := advance_cases r w h
  rw [h3, h1]; split <;> simp

theorem advance_length_le (r : Nat) (w : List iovec) (h : r < lens w) :
    (advance r w).length ≤ w.length := by
  rw [advance_length r w h]; exact skipN_length r w

theorem advance_lens (r : Nat) (w : List iovec) (h : r < lens w) :
    lens (advance r w) + r = lens w := by
  obtain ⟨v, vs, h1, h2, h3⟩ := advance_cases r w h
  have hl := skipN_lens r w h
  have hle := skipN_fst_le r w
  rw [h1] at hl
  rw [h3]
  split <;> simp only [lens] at hl ⊢ <;> omega

theorem advance_valid (r : Nat) (w : List iovec) (hv : ∀ v ∈ w, v.valid) (h : r < lens w) :
    ∀ v ∈ advance r w, v.valid := by
  obtain ⟨v, vs, h1, h2, h3⟩ := advance_cases r w h
  have hs := skipN_valid r w hv
  rw [h1] at hs
  rw [h3]
  split
  · intro u hu
    rcases List.mem_cons.mp hu with rfl | hu
    · have := hs v (List.mem_cons_self _ _)
      unfold iovec.valid at this ⊢
      simp only
      omega
    · exact hs u (List.mem_cons_of_mem _ hu)
  · exact hs

theorem advance_stream (r : Nat) (w : List iovec) (hv : ∀ v ∈ w, v.valid) (h : r < lens w) :
    stream (advance r w) = (stream w).drop r := by
  obtain ⟨v, vs, h1, h2, h3⟩ := advance_cases r w h
  have hs := skipN_stream r w hv h
  have hle := skipN_fst_le r w
  have hval := skipN_valid r w hv
  rw [h1] at hs hval
  rw [h3]
  split
  · simp only [stream] at hs ⊢
    rw [bytes_shift]
    have hb := bytes_length v (hval v (List.mem_cons_self _ _))
    have : (stream w).drop r
        = ((stream w).drop (r - (skipN r w).1)).drop (skipN r w).1 := by
      rw [List.drop_drop]; congr 1; omega
    rw [this, ← hs, List.drop_append_of_le_length (by omega)]
  · rename_i h0
    have : (skipN r w).1 = 0 := by omega
    rw [this] at hs
    simpa using hs

/-- Both halves of the window after `r` accepted bytes: what went into the pipe followed by
what the new window denotes is what the old window denoted. -/
theorem take_append_advance (r : Nat) (w : List iovec) (hv : ∀ v ∈ w, v.valid)
    (h : r < lens w) : (stream w).take r ++ stream (advance r w) = stream w := by
  rw [advance_stream r w hv h, List.take_append_drop]

/-! ## One pass through the loop body -/

theorem loop_body_eintr (s : LoopState) (r : SysResult) (h1 : r.ret < 0)
    (h2 : r.errno = EINTR) : loop_body s r = .cont s := by
  unfold loop_body
  rw [if_pos ⟨h1, h2⟩]

theorem loop_body_eagain (s : LoopState) (r : SysResult) (h1 : r.ret < 0)
    (h2 : r.errno = EAGAIN ∨ r.errno = EWOULDBLOCK) (h3 : 0 ≤ s.left) :
    loop_body s r = while_left s := by
  unfold loop_body
  have hn : ¬ (r.ret < 0 ∧ r.errno = EINTR) := by
    rintro ⟨_, h⟩
    rcases h2 with h2 | h2 <;> rw [h] at h2 <;> simp [EINTR, EAGAIN, EWOULDBLOCK] at h2
  have h4 : ¬ r.ret > 0 := by omega
  have h5 : ¬ r.ret = s.left := by omega
  simp only [if_neg hn, if_neg h4, if_neg h5, if_pos (And.intro h1 h2)]

theorem loop_body_fatal (s : LoopState) (r : SysResult) (h1 : r.ret < 0)
    (h2 : ¬ transient r.errno) (h3 : 0 ≤ s.left) :
    loop_body s r
      = .fail (if r.errno = ENOSPC then .NO_SPACE_LEFT else .WRITE r.errno) s := by
  unfold loop_body
  unfold transient at h2
  have hn : ¬ (r.ret < 0 ∧ r.errno = EINTR) := fun h => h2 (Or.inl h.2)
  have hn2 : ¬ (r.ret < 0 ∧ (r.errno = EAGAIN ∨ r.errno = EWOULDBLOCK)) :=
    fun h => h2 (Or.inr h.2)
  have h4 : ¬ r.ret > 0 := by omega
  have h5 : ¬ r.ret = s.left := by omega
  simp only [if_neg hn, if_neg h4, if_neg h5, if_neg hn2, if_pos h1]

theorem loop_body_complete (s : LoopState) (r : SysResult) (h1 : 0 ≤ r.ret)
    (h2 : r.ret = s.left) :
    loop_body s r = .done { s with bytes_written := s.bytes_written + r.ret.toNat } := by
  unfold loop_body
  have hn : ¬ (r.ret < 0 ∧ r.errno = EINTR) := by omega
  rw [if_neg hn]
  simp only [if_pos h2]
  by_cases h0 : r.ret > 0
  · rw [if_pos h0]
  · rw [if_neg h0]
    have : r.ret.toNat = 0 := by omega
    rw [this]; rfl

theorem loop_body_short (s : LoopState) (r : SysResult) (hI : Inv s) (h1 : 0 ≤ r.ret)
    (h2 : r.ret < s.left) :
    loop_body s r = .cont
      { vecs := advance r.ret.toNat s.vecs, n_vecs := (advance r.ret.toNat s.vecs).length,
        left := s.left - r.ret, bytes_written := s.bytes_written + r.ret.toNat } := by
  have hlt : r.ret.toNat < lens s.vecs := by have := hI.sum_eq; omega
  obtain ⟨v, vs, e1, e2, e3⟩ := advance_cases _ _ hlt
  have hsk := skip_written_eq r.ret.toNat s.left s.vecs hlt
  have hcast : ((r.ret.toNat : Nat) : Int) = r.ret := Int.toNat_of_nonneg h1
  rw [hcast, ← hI.count_eq] at hsk
  have hk := skipN_fst_le r.ret.toNat s.vecs
  have hbw : (if r.ret > 0 then
        ({ s with bytes_written := s.bytes_written + r.ret.toNat } : LoopState)
        else s).bytes_written
      = s.bytes_written + r.ret.toNat := by
    split
    · rfl
    · have : r.ret.toNat = 0 := by omega
      rw [this]; rfl
  unfold loop_body
  have hn : ¬ (r.ret < 0 ∧ r.errno = EINTR) := by omega
  have hn2 : ¬ (r.ret < 0 ∧ (r.errno = EAGAIN ∨ r.errno = EWOULDBLOCK)) := by omega
  have h5 : ¬ r.ret = s.left := by omega
  have h6 : ¬ r.ret < 0 := by omega
  simp only [if_neg hn, if_neg h5, if_neg hn2, if_neg h6, if_pos h2, hsk, hbw]
  rw [e1, e3]
  have hpos : (v :: vs).length > 0 := by simp
  rw [if_pos hpos]
  by_cases hk0 : 0 < (skipN r.ret.toNat s.vecs).1
  · have hk0' : ((skipN r.ret.toNat s.vecs).1 : Int) > 0 := by exact_mod_cast hk0
    rw [if_pos hk0', if_pos hk0]
    simp only [Int.toNat_ofNat]
    unfold while_left
    simp only
    have : s.left - (r.ret - ((skipN r.ret.toNat s.vecs).1 : Int))
        - ((skipN r.ret.toNat s.vecs).1 : Int) = s.left - r.ret := by omega
    rw [this, if_pos (by omega)]
    simp
  · have hk0' : ¬ ((skipN r.ret.toNat s.vecs).1 : Int) > 0 := by omega
    rw [if_neg hk0', if_neg hk0]
    unfold while_left
    simp only
    have hz : (skipN r.ret.toNat s.vecs).1 = 0 := by omega
    have : s.left - (r.ret - ((skipN r.ret.toNat s.vecs).1 : Int)) = s.left - r.ret := by
      rw [hz]; simp
    rw [this, if_pos (by omega)]

theorem while_left_state (s : LoopState) : (while_left s).state = s := by
  unfold while_left; split <;> rfl

/-- Every step adds the accepted bytes, and nothing else, to the counter. -/
theorem loop_body_bytes_written (s : LoopState) (r : SysResult) :
    (loop_body s r).state.bytes_written = s.bytes_written + r.ret.toNat := by
  have hbw : (if r.ret > 0 then
        ({ s with bytes_written := s.bytes_written + r.ret.toNat } : LoopState)
        else s).bytes_written
      = s.bytes_written + r.ret.toNat := by
    split
    · rfl
    · have : r.ret.toNat = 0 := by omega
      rw [this]; rfl
  unfold loop_body
  by_cases h : r.ret < 0 ∧ r.errno = EINTR
  · rw [if_pos h]
    have : r.ret.toNat = 0 := by omega
    simp [Step.state, this]
  · rw [if_neg h]
    dsimp only
    generalize (if r.ret > 0 then
        ({ s with bytes_written := s.bytes_written + r.ret.toNat } : LoopState) else s) = s1
      at hbw ⊢
    repeat' split
    all_goals try rw [while_left_state]
    all_goals exact hbw

theorem Inv.left_nonneg {s : LoopState} (hI : Inv s) : 0 ≤ s.left := by
  have := hI.sum_eq; omega

theorem accepted_of_neg (c : Call) (h : c.result.ret < 0) : c.accepted = [] := by
  unfold Call.accepted
  have : c.result.ret.toNat = 0 := by omega
  rw [this]; simp

/-- What one pass through the loop body does to a state that satisfies the invariant, when
the result of the call is sane. -/
theorem loop_body_spec (IOV_MAX : Nat) (s : LoopState) (r : SysResult) (hI : Inv s)
    (hs : (⟨s, chunk IOV_MAX s, r⟩ : Call).sane) :
    (∀ s1, loop_body s r = .cont s1 →
        Inv s1 ∧ s1.vecs.length ≤ s.vecs.length ∧
        (⟨s, chunk IOV_MAX s, r⟩ : Call).accepted ++ stream s1.vecs = stream s.vecs ∧
        (s1.bytes_written : Int) + s1.left = s.bytes_written + s.left ∧
        (0 < s.left → 0 < s1.left)) ∧
    (∀ s1, loop_body s r = .done s1 →
        (⟨s, chunk IOV_MAX s, r⟩ : Call).accepted = stream s.vecs ∧
        (s1.bytes_written : Int) = s.bytes_written + s.left ∧
        s1.vecs = s.vecs ∧ s1.left = s.left ∧ s1.n_vecs = s.n_vecs) ∧
    (∀ e s1, loop_body s r = .fail e s1 →
        s1 = s ∧ r.ret < 0 ∧ ¬ transient r.errno ∧
        e = classify r.errno) ∧
    (∀ why s1, loop_body s r ≠ .abort why s1) := by
  have hleft := hI.left_nonneg
  have hsum := hI.sum_eq
  by_cases hneg : r.ret < 0
  · have hacc : (⟨s, chunk IOV_MAX s, r⟩ : Call).accepted = [] := accepted_of_neg _ hneg
    by_cases hE : r.errno = EINTR
    · rw [loop_body_eintr s r hneg hE]
      refine ⟨?_, ?_, ?_, ?_⟩
      · intro s1 h
        cases h
        exact ⟨hI, le_refl _, by rw [hacc]; rfl, rfl, id⟩
      · intro s1 h; cases h
      · intro e s1 h; cases h
      · intro why s1 h; cases h
    · by_cases hA : r.errno = EAGAIN ∨ r.errno = EWOULDBLOCK
      · rw [loop_body_eagain s r hneg hA hleft]
        unfold while_left
        by_cases hl : s.left > 0
        · rw [if_pos hl]
          refine ⟨?_, ?_, ?_, ?_⟩
          · intro s1 h
            cases h
            exact ⟨hI, le_refl _, by rw [hacc]; rfl, rfl, id⟩
          · intro s1 h; cases h
          · intro e s1 h; cases h
          · intro why s1 h; cases h
        · rw [if_neg hl]
          have hz : s.left = 0 := by omega
          have hlen : (stream s.vecs).length = 0 := by
            rw [stream_length _ hI.valid]; omega
          refine ⟨?_, ?_, ?_, ?_⟩
          · intro s1 h; cases h
          · intro s1 h
            cases h
            refine ⟨?_, by omega, rfl, rfl, rfl⟩
            rw [hacc]
            exact (List.eq_nil_of_length_eq_zero hlen).symm
          · intro e s1 h; cases h
          · intro why s1 h; cases h
      · have hT : ¬ transient r.errno := by
          unfold transient
          rintro (h | h | h)
          · exact hE h
          · exact hA (Or.inl h)
          · exact hA (Or.inr h)
        rw [loop_body_fatal s r hneg hT hleft]
        refine ⟨?_, ?_, ?_, ?_⟩
        · intro s1 h; cases h
        · intro s1 h; cases h
        · intro e s1 h
          cases h
          exact ⟨rfl, hneg, hT, rfl⟩
        · intro why s1 h; cases h
  · have h0 : 0 ≤ r.ret := by omega
    have hsane : r.ret ≤ (lens (s.vecs.take (chunk IOV_MAX s)) : Int) := hs h0
    have htk := lens_take_le (chunk IOV_MAX s) s.vecs
    have hcast : ((r.ret.toNat : Nat) : Int) = r.ret := Int.toNat_of_nonneg h0
    have hsub : r.ret.toNat ≤ lens (s.vecs.take (chunk IOV_MAX s)) := by omega
    have hacc : (⟨s, chunk IOV_MAX s, r⟩ : Call).accepted
        = (stream s.vecs).take r.ret.toNat := by
      unfold Call.accepted Call.submitted
      exact take_stream_take _ _ _ hI.valid hsub
    by_cases heq : r.ret = s.left
    · rw [loop_body_complete s r h0 heq]
      refine ⟨?_, ?_, ?_, ?_⟩
      · intro s1 h; cases h
      · intro s1 h
        cases h
        refine ⟨?_, ?_, rfl, rfl, rfl⟩
        · rw [hacc]
          apply List.take_of_length_le
          rw [stream_length _ hI.valid]; omega
        · simp only; omega
      · intro e s1 h; cases h
      · intro why s1 h; cases h
    · have hlt : r.ret < s.left := by omega
      have hlt' : r.ret.toNat < lens s.vecs := by omega
      rw [loop_body_short s r hI h0 hlt]
      refine ⟨?_, ?_, ?_, ?_⟩
      · intro s1 h
        cases h
        refine ⟨⟨?_, rfl, ?_⟩, ?_, ?_, ?_, ?_⟩
        · have := advance_lens _ _ hlt'
          simp only; omega
        · exact advance_valid _ _ hI.valid hlt'
        · exact advance_length_le _ _ hlt'
        · rw [hacc]; exact take_append_advance _ _ hI.valid hlt'
        · simp only; omega
        · intro _; simp only; omega
      · intro s1 h; cases h
      · intro e s1 h; cases h
      · intro why s1 h; cases h

theorem loop_body_excess (s : LoopState) (r : SysResult) (h1 : 0 ≤ s.left)
    (h2 : s.left < r.ret) :
    loop_body s r = while_left { s with bytes_written := s.bytes_written + r.ret.toNat } := by
  unfold loop_body
  have hn : ¬ (r.ret < 0 ∧ r.errno = EINTR) := by omega
  have hn2 : ¬ (r.ret < 0 ∧ (r.errno = EAGAIN ∨ r.errno = EWOULDBLOCK)) := by omega
  have h5 : ¬ r.ret = s.left := by omega
  have h6 : ¬ r.ret < 0 := by omega
  have h7 : ¬ r.ret < s.left := by omega
  have h8 : r.ret > 0 := by omega
  simp only [if_neg hn, if_neg h5, if_neg hn2, if_neg h6, if_neg h7, if_pos h8]

/-- What one pass through the loop body does to a state that satisfies the invariant,
whatever the result of the call. -/
theorem loop_body_inv (s : LoopState) (r : SysResult) (hI : Inv s) :
    (∀ s1, loop_body s r = .cont s1 →
        Inv s1 ∧ s1.vecs.length ≤ s.vecs.length ∧ (0 < s.left → 0 < s1.left)) ∧
    (∀ s1, loop_body s r = .done s1 →
        s1.vecs = s.vecs ∧ s1.left = s.left ∧ s1.n_vecs = s.n_vecs) ∧
    (∀ e s1, loop_body s r = .fail e s1 →
        s1 = s ∧ r.ret < 0 ∧ ¬ transient r.errno ∧ e = classify r.errno) ∧
    (∀ why s1, loop_body s r ≠ .abort why s1) := by
  have hleft := hI.left_nonneg
  have hsum := hI.sum_eq
  by_cases hneg : r.ret < 0
  · by_cases hE : r.errno = EINTR
    · rw [loop_body_eintr s r hneg hE]
      refine ⟨?_, ?_, ?_, ?_⟩
      · intro s1 h
        cases h
        exact ⟨hI, le_refl _, id⟩
      · intro s1 h; cases h
      · intro e s1 h; cases h
      · intro why s1 h; cases h
    · by_cases hA : r.errno = EAGAIN ∨ r.errno = EWOULDBLOCK
      · rw [loop_body_eagain s r hneg hA hleft]
        unfold while_left
        by_cases hl : s.left > 0
        · rw [if_pos hl]
          refine ⟨?_, ?_, ?_, ?_⟩
          · intro s1 h
            cases h
            exact ⟨hI, le_refl _, id⟩
          · intro s1 h; cases h
          · intro e s1 h; cases h
          · intro why s1 h; cases h
        · rw [if_neg hl]
          refine ⟨?_, ?_, ?_, ?_⟩
          · intro s1 h; cases h
          · intro s1 h
            cases h
            exact ⟨rfl, rfl, rfl⟩
          · intro e s1 h; cases h
          · intro why s1 h; cases h
      · have hT : ¬ transient r.errno := by
          unfold transient
          rintro (h | h | h)
          · exact hE h
          · exact hA (Or.inl h)
          · exact hA (Or.inr h)
        rw [loop_body_fatal s r hneg hT hleft]
        refine ⟨?_, ?_, ?_, ?_⟩
        · intro s1 h; cases h
        · intro s1 h; cases h
        · intro e s1 h
          cases h
          exact ⟨rfl, hneg, hT, rfl⟩
        · intro why s1 h; cases h
  · have h0 : 0 ≤ r.ret := by omega
    by_cases heq : r.ret = s.left
    · rw [loop_body_complete s r h0 heq]
      refine ⟨?_, ?_, ?_, ?_⟩
      · intro s1 h; cases h
      · intro s1 h
        cases h
        exact ⟨rfl, rfl, rfl⟩
      · intro e s1 h; cases h
      · intro why s1 h; cases h
    · by_cases hlt : r.ret < s.left
      · have hlt' : r.ret.toNat < lens s.vecs := by omega
        rw [loop_body_short s r hI h0 hlt]
        refine ⟨?_, ?_, ?_, ?_⟩
        · intro s1 h
          cases h
          refine ⟨⟨?_, rfl, ?_⟩, ?_, ?_⟩
          · have := advance_lens _ _ hlt'
            simp only; omega
          · exact advance_valid _ _ hI.valid hlt'
          · exact advance_length_le _ _ hlt'
          · intro _; simp only; omega
        · intro s1 h; cases h
        · intro e s1 h; cases h
        · intro why s1 h; cases h
      · rw [loop_body_excess s r hleft (by omega)]
        unfold while_left
        simp only
        by_cases hl : s.left > 0
        · rw [if_pos hl]
          refine ⟨?_, ?_, ?_, ?_⟩
          · intro s1 h
            cases h
            exact ⟨⟨hI.sum_eq, hI.count_eq, hI.valid⟩, le_refl _, id⟩
          · intro s1 h; cases h
          · intro e s1 h; cases h
          · intro why s1 h; cases h
        · rw [if_neg hl]
          refine ⟨?_, ?_, ?_, ?_⟩
          · intro s1 h; cases h
          · intro s1 h
            cases h
            exact ⟨rfl, rfl, rfl⟩
          · intro e s1 h; cases h
          · intro why s1 h; cases h

/-! ## Runs of the write loop -/

theorem write_loop_nil (IOV_MAX : Nat) (s : LoopState) :
    write_loop IOV_MAX [] s = { exit := .pending, posted := none, state := s, calls := [] } :=
  rfl

theorem write_loop_cont (IOV_MAX : Nat) (f : Responder) (fs : List Responder)
    (s s1 : LoopState) (h : loop_body s (f (s.vecs.take (chunk IOV_MAX s))) = .cont s1) :
    write_loop IOV_MAX (f :: fs) s
      = { write_loop IOV_MAX fs s1 with
          calls := ⟨s, chunk IOV_MAX s, f (s.vecs.take (chunk IOV_MAX s))⟩
            :: (write_loop IOV_MAX fs s1).calls } := by
  simp only [write_loop, h]

theorem write_loop_done (IOV_MAX : Nat) (f : Responder) (fs : List Responder)
    (s s1 : LoopState) (h : loop_body s (f (s.vecs.take (chunk IOV_MAX s))) = .done s1) :
    write_loop IOV_MAX (f :: fs) s
      = { exit := .returned .GST_FLOW_OK, posted := none, state := s1,
          calls := [⟨s, chunk IOV_MAX s, f (s.vecs.take (chunk IOV_MAX s))⟩] } := by
  simp only [write_loop, h]

theorem write_loop_fail (IOV_MAX : Nat) (f : Responder) (fs : List Responder)
    (s s1 : LoopState) (e : ResourceError)
    (h : loop_body s (f (s.vecs.take (chunk IOV_MAX s))) = .fail e s1) :
    write_loop IOV_MAX (f :: fs) s
      = { exit := .returned .GST_FLOW_ERROR, posted := some e, state := s1,
          calls := [⟨s, chunk IOV_MAX s, f (s.vecs.take (chunk IOV_MAX s))⟩] } := by
  simp only [write_loop, h]

theorem write_loop_abort (IOV_MAX : Nat) (f : Responder) (fs : List Responder)
    (s s1 : LoopState) (why : Abort)
    (h : loop_body s (f (s.vecs.take (chunk IOV_MAX s))) = .abort why s1) :
    write_loop IOV_MAX (f :: fs) s
      = { exit := .aborted why, posted := none, state := s1,
          calls := [⟨s, chunk IOV_MAX s, f (s.vecs.take (chunk IOV_MAX s))⟩] } := by
  simp only [write_loop, h]

/-- The counter grows by the bytes accepted over the calls of the run, whatever the
responders do. -/
theorem write_loop_bytes_written (IOV_MAX : Nat) (fs : List Responder) (s : LoopState) :
    (write_loop IOV_MAX fs s).state.bytes_written
      = s.bytes_written + accepted_total (write_loop IOV_MAX fs s).calls := by
  induction fs generalizing s with
  | nil => simp [write_loop_nil, accepted_total]
  | cons f fs ih =>
    have hb := loop_body_bytes_written s (f (s.vecs.take (chunk IOV_MAX s)))
    cases hbody : loop_body s (f (s.vecs.take (chunk IOV_MAX s))) with
    | cont s1 =>
      rw [write_loop_cont _ _ _ _ _ hbody]
      rw [hbody] at hb
      simp only [Step.state] at hb
      simp only [accepted_total]
      rw [ih s1, hb]; omega
    | done s1 =>
      rw [write_loop_done _ _ _ _ _ hbody]
      rw [hbody] at hb
      simp only [Step.state] at hb
      simp only [accepted_total]
      rw [hb]; omega
    | fail e s1 =>
      rw [write_loop_fail _ _ _ _ _ _ hbody]
      rw [hbody] at hb
      simp only [Step.state] at hb
      simp only [accepted_total]
      rw [hb]; omega
    | abort why s1 =>
      rw [write_loop_abort _ _ _ _ _ _ hbody]
      rw [hbody] at hb
      simp only [Step.state] at hb
      simp only [accepted_total]
      rw [hb]; omega

/-- A run from a state that satisfies the invariant never aborts and keeps the invariant,
whatever the responders do. -/
theorem write_loop_inv (IOV_MAX : Nat) (fs : List Responder) (s : LoopState) (hI : Inv s) :
    RunInv s (write_loop IOV_MAX fs s) := by
  induction fs generalizing s with
  | nil =>
    rw [write_loop_nil]
    exact
      { no_abort := by intro why h; cases h
        calls_inv := by intro c hc; cases hc
        state_inv := hI
        state_le := le_refl _
        shrinking := List.Pairwise.nil
        final_le := by intro c hc; cases hc
        error_last := by intro h; cases h
        pending_left := by intro _ h; exact h }
  | cons f fs ih =>
    obtain ⟨h1, h2, h3, h4⟩ := loop_body_inv s (f (s.vecs.take (chunk IOV_MAX s))) hI
    cases hbody : loop_body s (f (s.vecs.take (chunk IOV_MAX s))) with
    | cont s1 =>
      rw [write_loop_cont _ _ _ _ _ hbody]
      obtain ⟨hI1, hle, hpos⟩ := h1 s1 hbody
      have R := ih s1 hI1
      exact
        { no_abort := R.no_abort
          calls_inv := by
            intro c hm
            rcases List.mem_cons.mp hm with rfl | hm
            · exact ⟨hI, le_refl _⟩
            · exact ⟨(R.calls_inv c hm).1, le_trans (R.calls_inv c hm).2 hle⟩
          state_inv := R.state_inv
          state_le := le_trans R.state_le hle
          shrinking := by
            refine List.Pairwise.cons ?_ R.shrinking
            intro d hd
            exact le_trans (R.calls_inv d hd).2 hle
          final_le := by
            intro c hm
            rcases List.mem_cons.mp hm with rfl | hm
            · exact le_trans R.state_le hle
            · exact R.final_le c hm
          error_last := by
            intro h
            obtain ⟨c, h1, h2, h3⟩ := R.error_last h
            refine ⟨c, ?_, h2, h3⟩
            simp only
            rw [List.getLast?_cons]
            rw [h1]; rfl
          pending_left := by
            intro h h0
            exact R.pending_left h (hpos h0) }
    | done s1 =>
      rw [write_loop_done _ _ _ _ _ hbody]
      obtain ⟨hv, hl, hn⟩ := h2 s1 hbody
      exact
        { no_abort := by intro why h; cases h
          calls_inv := by
            intro c hm
            rw [List.mem_singleton.mp hm]
            exact ⟨hI, le_refl _⟩
          state_inv := ⟨by simp only [hv, hl]; exact hI.sum_eq,
            by simp only [hv, hn]; exact hI.count_eq, by simp only [hv]; exact hI.valid⟩
          state_le := by simp only [hv]; exact le_refl _
          shrinking := List.pairwise_singleton _ _
          final_le := by
            intro c hm
            rw [List.mem_singleton.mp hm]
            simp only [hv]; exact le_refl _
          error_last := by intro h; cases h
          pending_left := by intro h; cases h }
    | fail e s1 =>
      rw [write_loop_fail _ _ _ _ _ _ hbody]
      obtain ⟨hs1, hneg, hT, he⟩ := h3 e s1 hbody
      subst hs1
      exact
        { no_abort := by intro why h; cases h
          calls_inv := by
            intro c hm
            rw [List.mem_singleton.mp hm]
            exact ⟨hI, le_refl _⟩
          state_inv := hI
          state_le := le_refl _
          shrinking := List.pairwise_singleton _ _
          final_le := by
            intro c hm
            rw [List.mem_singleton.mp hm]
          error_last := by
            intro _
            exact ⟨_, rfl, ⟨hneg, hT⟩, by rw [he]; rfl⟩
          pending_left := by intro h; cases h }
    | abort why s1 =>
      exact absurd hbody (h4 why s1)

/-- A run from a state that satisfies the invariant, all of whose calls have sane results,
accounts for every byte. -/
theorem write_loop_bytes (IOV_MAX : Nat) (fs : List Responder) (s : LoopState) (hI : Inv s)
    (hs : ∀ c ∈ (write_loop IOV_MAX fs s).calls, c.sane) :
    RunBytes s (write_loop IOV_MAX fs s) := by
  induction fs generalizing s with
  | nil =>
    rw [write_loop_nil]
    exact
      { ok_pipe := by intro h; cases h
        ok_count := by intro h; cases h
        other_pipe := by intro _; simp [pipe]
        other_count := by intro _; rfl }
  | cons f fs ih =>
    cases hbody : loop_body s (f (s.vecs.take (chunk IOV_MAX s))) with
    | cont s1 =>
      rw [write_loop_cont _ _ _ _ _ hbody] at hs ⊢
      have hc : (⟨s, chunk IOV_MAX s, f (s.vecs.take (chunk IOV_MAX s))⟩ : Call).sane :=
        hs _ (List.mem_cons_self _ _)
      obtain ⟨h1, _, _, _⟩ := loop_body_spec IOV_MAX s _ hI hc
      obtain ⟨hI1, hle, hpipe, hcount, hpos⟩ := h1 s1 hbody
      have R := ih s1 hI1 (fun c hm => hs c (List.mem_cons_of_mem _ hm))
      exact
        { ok_pipe := by
            intro h
            simp only [pipe]
            rw [R.ok_pipe h]; exact hpipe
          ok_count := by
            intro h
            have := R.ok_count h
            simp only at this ⊢
            omega
          other_pipe := by
            intro h
            simp only [pipe]
            rw [List.append_assoc, R.other_pipe h]; exact hpipe
          other_count := by
            intro h
            have := R.other_count h
            simp only at this ⊢
            omega }
    | done s1 =>
      rw [write_loop_done _ _ _ _ _ hbody] at hs ⊢
      have hc : (⟨s, chunk IOV_MAX s, f (s.vecs.take (chunk IOV_MAX s))⟩ : Call).sane :=
        hs _ (List.mem_singleton_self _)
      obtain ⟨_, h2, _, _⟩ := loop_body_spec IOV_MAX s _ hI hc
      obtain ⟨hacc, hcount, hv, hl, hn⟩ := h2 s1 hbody
      exact
        { ok_pipe := by intro _; simp only [pipe, List.append_nil]; exact hacc
          ok_count := by intro _; exact hcount
          other_pipe := by intro h; exact absurd rfl h
          other_count := by intro h; exact absurd rfl h }
    | fail e s1 =>
      rw [write_loop_fail _ _ _ _ _ _ hbody] at hs ⊢
      have hc : (⟨s, chunk IOV_MAX s, f (s.vecs.take (chunk IOV_MAX s))⟩ : Call).sane :=
        hs _ (List.mem_singleton_self _)
      obtain ⟨_, _, h3, _⟩ := loop_body_spec IOV_MAX s _ hI hc
      obtain ⟨hs1, hneg, hT, he⟩ := h3 e s1 hbody
      subst hs1
      exact
        { ok_pipe := by intro h; cases h
          ok_count := by intro h; cases h
          other_pipe := by
            intro _
            simp only [pipe, List.append_nil]
            rw [accepted_of_neg _ hneg]; rfl
          other_count := by intro _; rfl }
    | abort why s1 =>
      obtain ⟨_, _, _, h4⟩ := loop_body_inv s (f (s.vecs.take (chunk IOV_MAX s))) hI
      exact absurd hbody (h4 why s1)

/-- Every call passes the count `min (n_vecs, IOV_MAX)` computed from the state it is made
in. -/
theorem write_loop_calls_chunk (IOV_MAX : Nat) (fs : List Responder) (s : LoopState) :
    ∀ c ∈ (write_loop IOV_MAX fs s).calls, c.n = chunk IOV_MAX c.state := by
  induction fs generalizing s with
  | nil => intro c hc; cases hc
  | cons f fs ih =>
    cases hbody : loop_body s (f (s.vecs.take (chunk IOV_MAX s))) with
    | cont s1 =>
      rw [write_loop_cont _ _ _ _ _ hbody]
      intro c hm
      rcases List.mem_cons.mp hm with rfl | hm
      · rfl
      · exact ih s1 c hm
    | done s1 =>
      rw [write_loop_done _ _ _ _ _ hbody]
      intro c hm
      rw [List.mem_singleton.mp hm]
    | fail e s1 =>
      rw [write_loop_fail _ _ _ _ _ _ hbody]
      intro c hm
      rw [List.mem_singleton.mp hm]
    | abort why s1 =>
      rw [write_loop_abort _ _ _ _ _ _ hbody]
      intro c hm
      rw [List.mem_singleton.mp hm]

/-! ## Filling the vector array -/

theorem fill_loop_append (a b : List GstMemory) :
    fill_loop (a ++ b)
      = ((fill_loop a).1 ++ (fill_loop b).1, (fill_loop a).2.1 ++ (fill_loop b).2.1,
          (fill_loop a).2.2 + (fill_loop b).2.2) := by
  induction a with
  | nil => simp [fill_loop]
  | cons m ms ih => simp [fill_loop, ih, Nat.add_assoc]

theorem populate_eq (buffers : List GstBuffer) :
    populate buffers (mem_nums_of buffers) = some (fill_loop (segments buffers)) := by
  induction buffers with
  | nil => simp [populate, mem_nums_of, segments, fill_loop]
  | cons b bs ih =>
    unfold mem_nums_of at ih ⊢
    unfold segments at ih ⊢
    simp only [List.map_cons, populate, fill_vectors, if_true, ih, List.flatten_cons,
      fill_loop_append]

theorem mem_nums_sum (buffers : List GstBuffer) :
    (mem_nums_of buffers).sum = (segments buffers).length := by
  induction buffers with
  | nil => simp [mem_nums_of, segments]
  | cons b bs ih =>
    unfold mem_nums_of at ih ⊢
    unfold segments at ih ⊢
    simp only [List.map_cons, List.sum_cons, List.flatten_cons, List.length_append, ih]
    rfl

theorem fill_loop_length (ms : List GstMemory) :
    (fill_loop ms).1.length = ms.length ∧ (fill_loop ms).2.1.length = ms.length := by
  induction ms with
  | nil => simp [fill_loop]
  | cons m ms ih => simp [fill_loop, ih]

theorem fill_loop_size (ms : List GstMemory) : (fill_loop ms).2.2 = lens (fill_loop ms).1 := by
  induction ms with
  | nil => simp [fill_loop, lens]
  | cons m ms ih => simp [fill_loop, lens, ih]

theorem fill_entry_bytes (m : GstMemory) : (fill_entry m).1.bytes = mapped_bytes m := by
  unfold fill_entry gst_memory_map mapped_bytes iovec.bytes
  cases m.mappable <;> simp [empty_string]

theorem fill_entry_valid (m : GstMemory) : (fill_entry m).1.valid := by
  unfold fill_entry gst_memory_map iovec.valid
  cases m.mappable <;> simp [empty_string]

theorem fill_loop_valid (ms : List GstMemory) : ∀ v ∈ (fill_loop ms).1, v.valid := by
  induction ms with
  | nil => simp [fill_loop]
  | cons m ms ih =>
    intro v hv
    simp only [fill_loop, List.mem_cons] at hv
    rcases hv with rfl | hv
    · exact fill_entry_valid m
    · exact ih v hv

theorem fill_loop_stream (ms : List GstMemory) :
    stream (fill_loop ms).1 = ms.flatMap mapped_bytes := by
  induction ms with
  | nil => simp [fill_loop, stream]
  | cons m ms ih => simp [fill_loop, stream, ih, fill_entry_bytes]

theorem fill_loop_lens (ms : List GstMemory) :
    lens (fill_loop ms).1 = (ms.map (fun m => (mapped_bytes m).length)).sum := by
  induction ms with
  | nil => simp [fill_loop, lens]
  | cons m ms ih =>
    simp only [fill_loop, lens, ih, List.map_cons, List.sum_cons]
    rw [← fill_entry_bytes, bytes_length _ (fill_entry_valid m)]

theorem fill_loop_memory (ms : List GstMemory) :
    ((fill_loop ms).2.1.map (fun i => i.memory)).filterMap id
      = (ms.filter (fun m => m.mappable)).map (fun m => m.id) := by
  induction ms with
  | nil => simp [fill_loop]
  | cons m ms ih =>
    simp only [fill_loop, List.map_cons, List.filterMap_cons, ih]
    unfold fill_entry gst_memory_map
    cases hm : m.mappable <;> simp [hm]

/-- The write loop starts in a state that satisfies the invariant. -/
theorem init_state_inv (buffers : List GstBuffer) (bw : Nat) : Inv (init_state buffers bw) :=
  { sum_eq := by simp [init_state, fill_loop_size]
    count_eq := by simp [init_state, mem_nums_sum, fill_loop_length]
    valid := fill_loop_valid _ }

theorem init_state_stream (buffers : List GstBuffer) (bw : Nat) :
    stream (init_state buffers bw).vecs = mapped_stream buffers := by
  simp [init_state, mapped_stream, fill_loop_stream]

theorem init_state_left (buffers : List GstBuffer) (bw : Nat) :
    (init_state buffers bw).left = (mapped_size buffers : Int) := by
  simp [init_state, mapped_size, fill_loop_size, fill_loop_lens]

/-- How `gst_writev_buffers`, called for a batch, is made of the write loop. -/
theorem writev_eq (IOV_MAX : Nat) (fs : List Responder) (buffers : List GstBuffer)
    (bw : Nat) :
    writev IOV_MAX fs buffers bw
      = { outcome := (write_loop IOV_MAX fs (init_state buffers bw)).exit,
          posted := (write_loop IOV_MAX fs (init_state buffers bw)).posted,
          bytes_written := (write_loop IOV_MAX fs (init_state buffers bw)).state.bytes_written,
          calls := (write_loop IOV_MAX fs (init_state buffers bw)).calls,
          unmap_calls :=
            match (write_loop IOV_MAX fs (init_state buffers bw)).exit with
            | .returned _ => (fill_loop (segments buffers)).2.1.map (fun m => m.memory)
            | _ => [],
          state := some (write_loop IOV_MAX fs (init_state buffers bw)).state } := by
  unfold writev gst_writev_buffers
  rw [populate_eq]
  have hl : ((fill_loop (segments buffers)).2.1.take (mem_nums_of buffers).sum)
      = (fill_loop (segments buffers)).2.1 := by
    apply List.take_of_length_le
    rw [mem_nums_sum, (fill_loop_length _).2]
  simp only [hl]
  rfl

/-! ## Extending the list of responders -/

/-- Responders after the point where a run has ended are not used; if the run is still
pending, it goes on from the state it has reached. -/
theorem write_loop_append (IOV_MAX : Nat) (pre post : List Responder) (s : LoopState) :
    write_loop IOV_MAX (pre ++ post) s
      = if (write_loop IOV_MAX pre s).exit = .pending then
          { write_loop IOV_MAX post (write_loop IOV_MAX pre s).state with
            calls := (write_loop IOV_MAX pre s).calls
              ++ (write_loop IOV_MAX post (write_loop IOV_MAX pre s).state).calls }
        else write_loop IOV_MAX pre s := by
  induction pre generalizing s with
  | nil => simp [write_loop_nil]
  | cons f fs ih =>
    cases hbody : loop_body s (f (s.vecs.take (chunk IOV_MAX s))) with
    | cont s1 =>
      rw [List.cons_append, write_loop_cont _ _ _ _ _ hbody, write_loop_cont _ _ _ _ _ hbody,
        ih s1]
      simp only
      split <;> simp
    | done s1 =>
      rw [List.cons_append, write_loop_done _ _ _ _ _ hbody, write_loop_done _ _ _ _ _ hbody]
      simp
    | fail e s1 =>
      rw [List.cons_append, write_loop_fail _ _ _ _ _ _ hbody,
        write_loop_fail _ _ _ _ _ _ hbody]
      simp
    | abort why s1 =>
      rw [List.cons_append, write_loop_abort _ _ _ _ _ _ hbody,
        write_loop_abort _ _ _ _ _ _ hbody]
      simp

/-- A pending run has made one call per responder. -/
theorem write_loop_pending_length (IOV_MAX : Nat) (fs : List Responder) (s : LoopState)
    (h : (write_loop IOV_MAX fs s).exit = .pending) :
    (write_loop IOV_MAX fs s).calls.length = fs.length := by
  induction fs generalizing s with
  | nil => simp [write_loop_nil]
  | cons f fs ih =>
    cases hbody : loop_body s (f (s.vecs.take (chunk IOV_MAX s))) with
    | cont s1 =>
      rw [write_loop_cont _ _ _ _ _ hbody] at h ⊢
      simp only [List.length_cons]
      rw [ih s1 h]
    | done s1 => rw [write_loop_done _ _ _ _ _ hbody] at h; cases h
    | fail e s1 => rw [write_loop_fail _ _ _ _ _ _ hbody] at h; cases h
    | abort why s1 => rw [write_loop_abort _ _ _ _ _ _ hbody] at h; cases h

/-- As long as fewer bytes than requested have been accepted and no call has failed fatally,
the writer calls the primitive again. -/
theorem write_loop_pending (IOV_MAX : Nat) (fs : List Responder) (s : LoopState) (hI : Inv s)
    (hs : ∀ c ∈ (write_loop IOV_MAX fs s).calls, c.sane ∧ ¬ c.fatal)
    (hK : accepted_total (write_loop IOV_MAX fs s).calls < lens s.vecs) :
    (write_loop IOV_MAX fs s).exit = .pending := by
  have RI := write_loop_inv IOV_MAX fs s hI
  have RB := write_loop_bytes IOV_MAX fs s hI (fun c hc => (hs c hc).1)
  have hbw := write_loop_bytes_written IOV_MAX fs s
  have hsum := hI.sum_eq
  cases hexit : (write_loop IOV_MAX fs s).exit with
  | pending => rfl
  | aborted why => exact absurd hexit (RI.no_abort why)
  | returned flow =>
    cases flow with
    | GST_FLOW_OK =>
      have := RB.ok_count hexit
      omega
    | GST_FLOW_ERROR =>
      obtain ⟨c, hc, hf, _⟩ := RI.error_last hexit
      exact absurd hf (hs c (List.mem_of_getLast?_eq_some hc)).2

/-- A call that fails with a fatal error code ends the run at once. -/
theorem write_loop_fatal (IOV_MAX : Nat) (e : Nat) (post : List Responder) (s : LoopState)
    (h0 : 0 ≤ s.left) (he : ¬ transient e) :
    write_loop IOV_MAX (answer (-1) e :: post) s
      = { exit := .returned .GST_FLOW_ERROR, posted := some (classify e), state := s,
          calls := [⟨s, chunk IOV_MAX s, ⟨-1, e⟩⟩] } := by
  have hb : loop_body s (answer (-1) e (s.vecs.take (chunk IOV_MAX s)))
      = .fail (classify e) s := by
    have := loop_body_fatal s ⟨-1, e⟩ (show (-1 : Int) < 0 by decide) he h0
    simpa [answer, classify] using this
  rw [write_loop_fail _ _ _ _ _ _ hb]
  rfl

/-- A call that fails with a transient error code changes nothing and is followed by the rest
of the run; for the pipe-full codes this needs bytes to be left. -/
theorem write_loop_transient (IOV_MAX : Nat) (e : Nat) (post : List Responder)
    (s : LoopState) (he : e = EINTR ∨ ((e = EAGAIN ∨ e = EWOULDBLOCK) ∧ 0 < s.left)) :
    write_loop IOV_MAX (answer (-1) e :: post) s
      = { write_loop IOV_MAX post s with
          calls := ⟨s, chunk IOV_MAX s, ⟨-1, e⟩⟩ :: (write_loop IOV_MAX post s).calls } := by
  have hb : loop_body s (answer (-1) e (s.vecs.take (chunk IOV_MAX s))) = .cont s := by
    rcases he with he | ⟨he, hl⟩
    · exact loop_body_eintr s ⟨-1, e⟩ (show (-1 : Int) < 0 by decide) he
    · have := loop_body_eagain s ⟨-1, e⟩ (show (-1 : Int) < 0 by decide) he (by omega)
      rw [show answer (-1) e (s.vecs.take (chunk IOV_MAX s)) = ⟨-1, e⟩ from rfl, this]
      unfold while_left
      rw [if_pos hl]
  rw [write_loop_cont _ _ _ _ _ hb]
  rfl

/-! ## The render entry points -/

theorem render_cases (sink : GstFifoSink) (batch : Batch) :
    (segments batch.buffers = [] ∧
      ∀ (IOV_MAX : Nat) (fs : List Responder), render IOV_MAX fs sink batch = idle sink) ∨
    (∀ (IOV_MAX : Nat) (fs : List Responder),
      render IOV_MAX fs sink batch
        = gst_fifosink_render_buffers IOV_MAX fs sink batch.buffers
            (mem_nums_of batch.buffers) (mem_nums_of batch.buffers).sum) := by
  cases batch with
  | single b =>
    by_cases h : gst_buffer_n_memory b > 0
    · right
      intro IOV_MAX fs
      unfold render gst_fifosink_render
      simp only [h, if_true, Batch.buffers, mem_nums_of, List.map_cons, List.map_nil,
        List.sum_cons, List.sum_nil, Nat.add_zero]
    · left
      constructor
      · unfold gst_buffer_n_memory at h
        have : b = [] := List.eq_nil_of_length_eq_zero (by omega)
        simp [this, Batch.buffers, segments]
      · intro IOV_MAX fs
        unfold render gst_fifosink_render
        simp only [h, if_false]
        rfl
  | list l =>
    by_cases h : l.length = 0
    · left
      constructor
      · have : l = [] := List.eq_nil_of_length_eq_zero h
        simp [this, Batch.buffers, segments]
      · intro IOV_MAX fs
        unfold render gst_fifosink_render_list
        simp only [h, if_true]
        rfl
    · right
      intro IOV_MAX fs
      unfold render gst_fifosink_render_list
      simp only [h, if_false, Batch.buffers, mem_nums_of]

theorem render_buffers_eq (IOV_MAX : Nat) (fs : List Responder) (sink : GstFifoSink)
    (buffers : List GstBuffer) :
    gst_fifosink_render_buffers IOV_MAX fs sink buffers (mem_nums_of buffers)
        (mem_nums_of buffers).sum
      = { outcome := (writev IOV_MAX fs buffers 0).outcome,
          sink :=
            match (writev IOV_MAX fs buffers 0).outcome with
            | .returned _ =>
              { sink with
                bytes_written := sink.bytes_written + (writev IOV_MAX fs buffers 0).bytes_written }
            | _ => sink,
          posted := (writev IOV_MAX fs buffers 0).posted,
          calls := (writev IOV_MAX fs buffers 0).calls,
          unmap_calls := (writev IOV_MAX fs buffers 0).unmap_calls } := rfl

theorem mapped_size_nil (buffers : List GstBuffer) (h : segments buffers = []) :
    mapped_size buffers = 0 := by
  simp [mapped_size, h]

theorem sum_flatten_map (f : GstMemory → Nat) (buffers : List GstBuffer) :
    ((buffers.flatten).map f).sum = (buffers.map (fun b => (b.map f).sum)).sum := by
  induction buffers with
  | nil => simp
  | cons b bs ih =>
    simp only [List.flatten_cons, List.map_append, List.sum_append, List.map_cons,
      List.sum_cons, ih]

theorem mapped_size_all (buffers : List GstBuffer)
    (h : ∀ m ∈ segments buffers, m.mappable = true) :
    mapped_size buffers = batch_size buffers := by
  unfold mapped_size batch_size
  rw [← sum_flatten_map]
  unfold segments at h ⊢
  congr 1
  apply List.map_congr_left
  intro m hm
  simp [mapped_bytes, h m hm]

/-- The bytes counted by a returned `gst_writev_buffers`, for sane results. -/
theorem writev_ok_count (IOV_MAX : Nat) (fs : List Responder) (buffers : List GstBuffer)
    (bw : Nat) (hs : ∀ c ∈ (writev IOV_MAX fs buffers bw).calls, c.sane)
    (hok : (writev IOV_MAX fs buffers bw).outcome = .returned .GST_FLOW_OK) :
    (writev IOV_MAX fs buffers bw).bytes_written = bw + mapped_size buffers := by
  rw [writev_eq] at hs hok ⊢
  have RB := write_loop_bytes IOV_MAX fs _ (init_state_inv buffers bw) hs
  have h := RB.ok_count hok
  have hb : (init_state buffers bw).bytes_written = bw := rfl
  rw [init_state_left, hb] at h
  simp only
  omega

/-- C1 (amended): for every sink state and every batch (one buffer or a buffer list), if every
non-negative result of the transfer primitive is at most the total length of the entries
submitted in that call and the render returns `GST_FLOW_OK`, then `bytes_written` has grown by
exactly the total length of the segments of the batch that were mapped successfully; when every
segment maps, that is the sum over the buffers of the sum of the segment lengths. -/
theorem render_ok_bytes_written (IOV_MAX : Nat) (fs : List Responder) (sink : GstFifoSink)
    (batch : Batch) (hs : ∀ c ∈ (render IOV_MAX fs sink batch).calls, c.sane)
    (hok : (render IOV_MAX fs sink batch).outcome = .returned .GST_FLOW_OK) :
    (render IOV_MAX fs sink batch).sink.bytes_written
        = sink.bytes_written + mapped_size batch.buffers ∧
    ((∀ m ∈ segments batch.buffers, m.mappable = true) →
      (render IOV_MAX fs sink batch).sink.bytes_written
        = sink.bytes_written + batch_size batch.buffers) := by
  have key : (render IOV_MAX fs sink batch).sink.bytes_written
      = sink.bytes_written + mapped_size batch.buffers := by
    rcases render_cases sink batch with ⟨hn, h⟩ | h
    · rw [h, mapped_size_nil _ hn]; rfl
    · rw [h, render_buffers_eq] at hs hok ⊢
      simp only at hs hok
      have := writev_ok_count IOV_MAX fs batch.buffers 0 hs hok
      simp only [hok, this]
      omega
  exact ⟨key, fun hall => by rw [key, mapped_size_all _ hall]⟩

/-- C1, witness: a list render of the mixed batch in which the pipe takes 3 bytes and then
the remaining 2, and a single-buffer render of a two-byte buffer; the counter starts at 10. -/
theorem render_ok_bytes_written_witness :
    (∀ c ∈ (render 1024 [answer 3 0, answer 2 0] sink_open (.list batch_mixed)).calls, c.sane) ∧
    (render 1024 [answer 3 0, answer 2 0] sink_open (.list batch_mixed)).outcome
      = .returned .GST_FLOW_OK ∧
    (render 1024 [answer 3 0, answer 2 0] sink_open (.list batch_mixed)).sink.bytes_written
      = 15 ∧
    (render 1024 [answer 2 0] sink_open (.single [seg 1 [7, 8]])).sink.bytes_written = 12 :=
  ⟨by decide, by decide,
    (render_ok_bytes_written 1024 [answer 3 0, answer 2 0] sink_open (.list batch_mixed)
      (by decide) (by decide)).1,
    (render_ok_bytes_written 1024 [answer 2 0] sink_open (.single [seg 1 [7, 8]])
      (by decide) (by decide)).1⟩

/-- C1, counterexample to the claim as stated: the list render of a batch whose only segment
has five bytes and cannot be mapped returns `GST_FLOW_OK` after a sane call, and
`bytes_written` has not grown by the batch's total size 5. -/
theorem render_ok_bytes_written_counterexample :
    (render 1024 [answer 0 0] sink_open (.list batch_unmappable)).outcome
      = .returned .GST_FLOW_OK ∧
    (∀ c ∈ (render 1024 [answer 0 0] sink_open (.list batch_unmappable)).calls, c.sane) ∧
    batch_size batch_unmappable = 5 ∧
    (render 1024 [answer 0 0] sink_open (.list batch_unmappable)).sink.bytes_written
      ≠ sink_open.bytes_written + batch_size batch_unmappable := by
  decide

/-! ## Byte stream, unmapping and the loop invariant for a batch -/

theorem block_length (n : Nat) (b : Byte) : (block n b).length = n := by
  simp [block]

theorem mapped_stream_all (buffers : List GstBuffer)
    (h : ∀ m ∈ segments buffers, m.mappable = true) :
    mapped_stream buffers = batch_stream buffers := by
  unfold mapped_stream batch_stream
  generalize segments buffers = ms at h
  induction ms with
  | nil => rfl
  | cons m ms ih =>
    simp only [List.flatMap_cons]
    rw [ih (fun u hu => h u (List.mem_cons_of_mem _ hu))]
    simp [mapped_bytes, h m (List.mem_cons_self _ _)]

/-- The bytes in the pipe after a returned `gst_writev_buffers`, for sane results. -/
theorem writev_ok_stream (IOV_MAX : Nat) (fs : List Responder) (buffers : List GstBuffer)
    (bw : Nat) (hs : ∀ c ∈ (writev IOV_MAX fs buffers bw).calls, c.sane)
    (hok : (writev IOV_MAX fs buffers bw).outcome = .returned .GST_FLOW_OK) :
    pipe (writev IOV_MAX fs buffers bw).calls = mapped_stream buffers := by
  rw [writev_eq] at hs hok ⊢
  have RB := write_loop_bytes IOV_MAX fs _ (init_state_inv buffers bw) hs
  have h := RB.ok_pipe hok
  rw [init_state_stream] at h
  exact h

/-- C2 (amended): for every batch and every behaviour of the transfer primitive in which each
call accepts a leading part of the submitted bytes, of any length: when `gst_writev_buffers`
returns `GST_FLOW_OK`, the bytes accepted over all calls, concatenated, are the contents of the
successfully mapped segments in buffer order, then segment order, nothing duplicated, omitted
or reordered; when every segment maps these are all segment contents. -/
theorem writev_ok_pipe (IOV_MAX : Nat) (fs : List Responder) (buffers : List GstBuffer)
    (bw : Nat) (hs : ∀ c ∈ (writev IOV_MAX fs buffers bw).calls, c.sane)
    (hok : (writev IOV_MAX fs buffers bw).outcome = .returned .GST_FLOW_OK) :
    pipe (writev IOV_MAX fs buffers bw).calls = mapped_stream buffers ∧
    ((∀ m ∈ segments buffers, m.mappable = true) →
      pipe (writev IOV_MAX fs buffers bw).calls = batch_stream buffers) := by
  have key := writev_ok_stream IOV_MAX fs buffers bw hs hok
  exact ⟨key, fun hall => by rw [key, mapped_stream_all _ hall]⟩

/-- C2, witness, the scenario of the specification: buffers of 4096, 8192 and 100 bytes, a first
call that returns 5000 and a second that returns 7388.  The second call is made with the window
(buffer 2 at offset 904, length 7288), (buffer 3, length 100), and the run ends with
`GST_FLOW_OK`, `bytes_written = 12388` and the three buffers' bytes in the pipe. -/
theorem writev_ok_pipe_witness :
    (∀ c ∈ (writev 1024 [answer 5000 0, answer 7388 0] scenario 0).calls, c.sane) ∧
    (writev 1024 [answer 5000 0, answer 7388 0] scenario 0).outcome
      = .returned .GST_FLOW_OK ∧
    (writev 1024 [answer 5000 0, answer 7388 0] scenario 0).calls.map (fun c => c.state.vecs)
      = [[⟨⟨block 4096 1, 0⟩, 4096⟩, ⟨⟨block 8192 2, 0⟩, 8192⟩, ⟨⟨block 100 3, 0⟩, 100⟩],
         [⟨⟨block 8192 2, 904⟩, 7288⟩, ⟨⟨block 100 3, 0⟩, 100⟩]] ∧
    (writev 1024 [answer 5000 0, answer 7388 0] scenario 0).bytes_written = 12388 ∧
    pipe (writev 1024 [answer 5000 0, answer 7388 0] scenario 0).calls
      = block 4096 1 ++ (block 8192 2 ++ block 100 3) :=
  ⟨by simp [writev, gst_writev_buffers, mem_nums_of, populate, fill_vectors, fill_loop,
      fill_entry, gst_memory_map, scenario, seg, write_loop, chunk, loop_body, answer,
      skip_written, while_left, gst_buffer_n_memory, EINTR, EAGAIN, EWOULDBLOCK,
      block_length, Call.sane,
      Call.submitted, lens],
   by simp [writev, gst_writev_buffers, mem_nums_of, populate, fill_vectors, fill_loop,
      fill_entry, gst_memory_map, scenario, seg, write_loop, chunk, loop_body, answer,
      skip_written, while_left, gst_buffer_n_memory, EINTR, EAGAIN, EWOULDBLOCK, block_length],
   by simp [writev, gst_writev_buffers, mem_nums_of, populate, fill_vectors, fill_loop,
      fill_entry, gst_memory_map, scenario, seg, write_loop, chunk, loop_body, answer,
      skip_written, while_left, gst_buffer_n_memory, EINTR, EAGAIN, EWOULDBLOCK, block_length],
   by simp [writev, gst_writev_buffers, mem_nums_of, populate, fill_vectors, fill_loop,
      fill_entry, gst_memory_map, scenario, seg, write_loop, chunk, loop_body, answer,
      skip_written, while_left, gst_buffer_n_memory, EINTR, EAGAIN, EWOULDBLOCK, block_length],
   (writev_ok_pipe 1024 [answer 5000 0, answer 7388 0] scenario 0
      (by simp [writev, gst_writev_buffers, mem_nums_of, populate, fill_vectors, fill_loop,
        fill_entry, gst_memory_map, scenario, seg, write_loop, chunk, loop_body, answer,
        skip_written, while_left, gst_buffer_n_memory, EINTR, EAGAIN, EWOULDBLOCK,
      block_length, Call.sane,
        Call.submitted, lens])
      (by simp [writev, gst_writev_buffers, mem_nums_of, populate, fill_vectors, fill_loop,
        fill_entry, gst_memory_map, scenario, seg, write_loop, chunk, loop_body, answer,
        skip_written, while_left, gst_buffer_n_memory, EINTR, EAGAIN, EWOULDBLOCK,
        block_length])).1.trans
      (by simp [mapped_stream, segments, scenario, seg, mapped_bytes])⟩

/-- C2, counterexample to the claim as stated: for a batch whose only segment cannot be mapped
the primitive accepts a (empty) leading part, `gst_writev_buffers` returns `GST_FLOW_OK`, and
the pipe has not received the segment's contents. -/
theorem writev_ok_pipe_counterexample :
    (∀ c ∈ (writev 1024 [answer 0 0] batch_unmappable 0).calls,
      0 ≤ c.result.ret ∧ c.result.ret ≤ (lens c.submitted : Int)) ∧
    (writev 1024 [answer 0 0] batch_unmappable 0).outcome = .returned .GST_FLOW_OK ∧
    pipe (writev 1024 [answer 0 0] batch_unmappable 0).calls
      ≠ batch_stream batch_unmappable := by
  decide

/-- C6: for every batch, every map outcome of its segments and every way in which
`gst_writev_buffers` returns (`GST_FLOW_OK`, or `GST_FLOW_ERROR` with either posted error), the
segments it has unmapped when it returns are exactly the successfully mapped ones, each once
and in order: there is one `gst_memory_unmap` call per entry, with the segment for a mapped
entry and with `NULL` for an entry whose mapping failed. -/
theorem writev_unmaps (IOV_MAX : Nat) (fs : List Responder) (buffers : List GstBuffer)
    (bw : Nat) (flow : GstFlowReturn)
    (h : (writev IOV_MAX fs buffers bw).outcome = .returned flow) :
    unmapped_segments (writev IOV_MAX fs buffers bw).unmap_calls = mapped_ids buffers ∧
    (writev IOV_MAX fs buffers bw).unmap_calls
      = (segments buffers).map (fun m => if m.mappable then some m.id else none) := by
  rw [writev_eq] at h ⊢
  simp only at h ⊢
  rw [h]
  simp only
  refine ⟨fill_loop_memory _, ?_⟩
  generalize segments buffers = ms
  induction ms with
  | nil => rfl
  | cons m ms ih =>
    simp only [fill_loop, List.map_cons, ih]
    congr 1
    unfold fill_entry gst_memory_map
    cases m.mappable <;> rfl

/-- C6, witness: the mixed batch (segment 2 cannot be mapped) with a run that ends with
`GST_FLOW_OK`, one that ends with `NO_SPACE_LEFT` and one that ends with a write error. -/
theorem writev_unmaps_witness :
    (writev 1024 [answer 5 0] batch_mixed 0).outcome = .returned .GST_FLOW_OK ∧
    unmapped_segments (writev 1024 [answer 5 0] batch_mixed 0).unmap_calls = [1, 3, 4] ∧
    (writev 1024 [answer (-1) ENOSPC] batch_mixed 0).posted = some .NO_SPACE_LEFT ∧
    unmapped_segments (writev 1024 [answer (-1) ENOSPC] batch_mixed 0).unmap_calls
      = [1, 3, 4] ∧
    (writev 1024 [answer 2 0, answer (-1) 5] batch_mixed 0).posted = some (.WRITE 5) ∧
    unmapped_segments (writev 1024 [answer 2 0, answer (-1) 5] batch_mixed 0).unmap_calls
      = [1, 3, 4] :=
  ⟨by decide,
   (writev_unmaps 1024 [answer 5 0] batch_mixed 0 .GST_FLOW_OK (by decide)).1,
   by decide,
   (writev_unmaps 1024 [answer (-1) ENOSPC] batch_mixed 0 .GST_FLOW_ERROR (by decide)).1,
   by decide,
   (writev_unmaps 1024 [answer 2 0, answer (-1) 5] batch_mixed 0 .GST_FLOW_ERROR
      (by decide)).1⟩

/-- C10: the loop invariant of the write loop of `gst_writev_buffers`.  For every batch and
every behaviour of the primitive (in particular when each non-negative result is at most the
total length of the submitted entries), the function never stops on a read of `vecs[0]` past
the last entry or on the failed assertion `n_vecs > 0`; at the start of every iteration, and
in the state the function stops in, the lengths of the entries in the window add up to `left`,
`n_vecs` is the number of entries in the window, and the window is non-empty whenever
`left > 0`; and from one call to the next, and to the final state, the number of entries in
the window never grows. -/
theorem writev_loop_invariant (IOV_MAX : Nat) (fs : List Responder)
    (buffers : List GstBuffer) (bw : Nat) :
    (∀ why, (writev IOV_MAX fs buffers bw).outcome ≠ .aborted why) ∧
    (∀ c ∈ (writev IOV_MAX fs buffers bw).calls,
      (lens c.state.vecs : Int) = c.state.left ∧ c.state.n_vecs = c.state.vecs.length ∧
      (0 < c.state.left → c.state.vecs ≠ [])) ∧
    (∃ s, (writev IOV_MAX fs buffers bw).state = some s ∧
      (lens s.vecs : Int) = s.left ∧ s.n_vecs = s.vecs.length ∧
      (0 < s.left → s.vecs ≠ []) ∧
      ∀ c ∈ (writev IOV_MAX fs buffers bw).calls, s.vecs.length ≤ c.state.vecs.length) ∧
    (writev IOV_MAX fs buffers bw).calls.Pairwise
      (fun a b => b.state.vecs.length ≤ a.state.vecs.length) ∧
    (∀ c ∈ (writev IOV_MAX fs buffers bw).calls,
      c.state.vecs.length ≤ (segments buffers).length) := by
  have nonempty : ∀ s : LoopState, Inv s → 0 < s.left → s.vecs ≠ [] := by
    intro s hI h0 hnil
    have := hI.sum_eq
    rw [hnil] at this
    simp [lens] at this
    omega
  rw [writev_eq]
  have RI := write_loop_inv IOV_MAX fs _ (init_state_inv buffers bw)
  refine ⟨RI.no_abort, ?_, ?_, RI.shrinking, ?_⟩
  · intro c hc
    have hI := (RI.calls_inv c hc).1
    exact ⟨hI.sum_eq, hI.count_eq, nonempty _ hI⟩
  · refine ⟨_, rfl, RI.state_inv.sum_eq, RI.state_inv.count_eq, nonempty _ RI.state_inv,
      RI.final_le⟩
  · intro c hc
    have := (RI.calls_inv c hc).2
    simpa [init_state, fill_loop_length] using this

/-! ## Fatal and transient failures -/

theorem write_loop_head (IOV_MAX : Nat) (fs : List Responder) (s : LoopState) (d : Call)
    (h : (write_loop IOV_MAX fs s).calls.head? = some d) :
    d.state = s ∧ d.n = chunk IOV_MAX s := by
  cases fs with
  | nil => rw [write_loop_nil] at h; cases h
  | cons f fs =>
    cases hbody : loop_body s (f (s.vecs.take (chunk IOV_MAX s))) with
    | cont s1 =>
      rw [write_loop_cont _ _ _ _ _ hbody] at h
      simp only [List.head?_cons, Option.some.injEq] at h
      rw [← h]; exact ⟨rfl, rfl⟩
    | done s1 =>
      rw [write_loop_done _ _ _ _ _ hbody] at h
      simp only [List.head?_cons, Option.some.injEq] at h
      rw [← h]; exact ⟨rfl, rfl⟩
    | fail e s1 =>
      rw [write_loop_fail _ _ _ _ _ _ hbody] at h
      simp only [List.head?_cons, Option.some.injEq] at h
      rw [← h]; exact ⟨rfl, rfl⟩
    | abort why s1 =>
      rw [write_loop_abort _ _ _ _ _ _ hbody] at h
      simp only [List.head?_cons, Option.some.injEq] at h
      rw [← h]; exact ⟨rfl, rfl⟩

/-- As long as fewer bytes than the size of the transfer have been accepted, in calls with
sane results none of which failed fatally, `gst_writev_buffers` calls the primitive again. -/
theorem writev_calls_again (IOV_MAX : Nat) (pre : List Responder)
    (buffers : List GstBuffer) (bw : Nat)
    (hs : ∀ c ∈ (writev IOV_MAX pre buffers bw).calls, c.sane ∧ ¬ c.fatal)
    (hK : accepted_total (writev IOV_MAX pre buffers bw).calls < mapped_size buffers) :
    (writev IOV_MAX pre buffers bw).outcome = .pending := by
  rw [writev_eq] at hs hK ⊢
  have hI := init_state_inv buffers bw
  have hlens : lens (init_state buffers bw).vecs = mapped_size buffers := by
    have h1 := hI.sum_eq
    rw [init_state_left] at h1
    exact_mod_cast h1
  exact write_loop_pending IOV_MAX pre _ hI hs (by rw [hlens]; exact hK)

/-- The run of `gst_writev_buffers` for a batch, when the primitive fails fatally in the call
that follows the responders `pre`. -/
theorem writev_fatal (IOV_MAX : Nat) (pre post : List Responder) (e : Nat)
    (buffers : List GstBuffer) (bw : Nat)
    (hp : (writev IOV_MAX pre buffers bw).outcome = .pending) (he : ¬ transient e) :
    (writev IOV_MAX (pre ++ answer (-1) e :: post) buffers bw).outcome
        = .returned .GST_FLOW_ERROR ∧
    (writev IOV_MAX (pre ++ answer (-1) e :: post) buffers bw).posted = some (classify e) ∧
    (∃ c, (writev IOV_MAX (pre ++ answer (-1) e :: post) buffers bw).calls
        = (writev IOV_MAX pre buffers bw).calls ++ [c] ∧ c.result = ⟨-1, e⟩) ∧
    (writev IOV_MAX pre buffers bw).calls.length = pre.length ∧
    (writev IOV_MAX (pre ++ answer (-1) e :: post) buffers bw).bytes_written
        = bw + accepted_total (writev IOV_MAX pre buffers bw).calls := by
  rw [writev_eq] at hp
  have hI := init_state_inv buffers bw
  have RI := write_loop_inv IOV_MAX pre _ hI
  have hbw := write_loop_bytes_written IOV_MAX pre (init_state buffers bw)
  have hlen := write_loop_pending_length IOV_MAX pre _ hp
  rw [writev_eq, writev_eq]
  rw [write_loop_append, if_pos hp, write_loop_fatal _ _ _ _ RI.state_inv.left_nonneg he]
  refine ⟨rfl, rfl, ⟨_, rfl, rfl⟩, hlen, ?_⟩
  exact hbw

/-- C3: for every sink, every batch and every non-transient error code `e`.  Let `K` be the
number of bytes the primitive has accepted in total over the calls answered by `pre`.  If `K`
is less than the size of the transfer (and these calls had sane results and none failed
fatally), the render calls the primitive again; and when the call after `pre` fails with `e`,
the render returns `GST_FLOW_ERROR`, the posted error is `NO_SPACE_LEFT` for the out-of-space
code and a write error carrying the code for any other, the failing call is the last call of
the primitive (responders after it are never used), and `bytes_written` has grown by exactly
`K`. -/
theorem render_fatal (IOV_MAX : Nat) (pre post : List Responder) (e : Nat)
    (sink : GstFifoSink) (batch : Batch) (he : ¬ transient e) :
    ((∀ c ∈ (render IOV_MAX pre sink batch).calls, c.sane ∧ ¬ c.fatal) →
      accepted_total (render IOV_MAX pre sink batch).calls < mapped_size batch.buffers →
      (render IOV_MAX pre sink batch).outcome = .pending) ∧
    ((render IOV_MAX pre sink batch).outcome = .pending →
      (render IOV_MAX (pre ++ answer (-1) e :: post) sink batch).outcome
          = .returned .GST_FLOW_ERROR ∧
      (render IOV_MAX (pre ++ answer (-1) e :: post) sink batch).posted
          = some (if e = ENOSPC then .NO_SPACE_LEFT else .WRITE e) ∧
      (∃ c, (render IOV_MAX (pre ++ answer (-1) e :: post) sink batch).calls
          = (render IOV_MAX pre sink batch).calls ++ [c] ∧ c.result = ⟨-1, e⟩) ∧
      (render IOV_MAX (pre ++ answer (-1) e :: post) sink batch).calls.length
          = pre.length + 1 ∧
      (render IOV_MAX (pre ++ answer (-1) e :: post) sink batch).sink.bytes_written
          = sink.bytes_written
            + accepted_total (render IOV_MAX pre sink batch).calls) := by
  rcases render_cases sink batch with ⟨hn, hidle⟩ | h
  · constructor
    · intro _ hK
      rw [mapped_size_nil _ hn] at hK
      omega
    · intro hp
      rw [hidle] at hp
      cases hp
  · constructor
    · intro hs hK
      rw [h, render_buffers_eq] at hs hK ⊢
      exact writev_calls_again IOV_MAX pre batch.buffers 0 hs hK
    · intro hp
      rw [h, render_buffers_eq] at hp
      obtain ⟨a1, a2, ⟨c, a3, a4⟩, a5, a6⟩ :=
        writev_fatal IOV_MAX pre post e batch.buffers 0 hp he
      rw [h, h, render_buffers_eq, render_buffers_eq]
      refine ⟨a1, a2, ⟨c, a3, a4⟩, ?_, ?_⟩
      · show (writev IOV_MAX (pre ++ answer (-1) e :: post) batch.buffers 0).calls.length = _
        rw [a3, List.length_append, a5]; rfl
      · simp only [a1, a6]
        omega

/-- C3, witness: of the 5 mapped bytes of the mixed batch the pipe takes 2, then the call is
interrupted, then it fails with `ENOSPC`; a further responder is never used. -/
theorem render_fatal_witness :
    (∀ c ∈ (render 1024 [answer 2 0, answer (-1) EINTR] sink_open (.list batch_mixed)).calls,
      c.sane ∧ ¬ c.fatal) ∧
    accepted_total
      (render 1024 [answer 2 0, answer (-1) EINTR] sink_open (.list batch_mixed)).calls = 2 ∧
    mapped_size batch_mixed = 5 ∧
    (render 1024 [answer 2 0, answer (-1) EINTR] sink_open (.list batch_mixed)).outcome
      = .pending ∧
    (render 1024 ([answer 2 0, answer (-1) EINTR] ++ answer (-1) ENOSPC :: [answer 3 0])
      sink_open (.list batch_mixed)).posted = some .NO_SPACE_LEFT ∧
    (render 1024 ([answer 2 0, answer (-1) EINTR] ++ answer (-1) ENOSPC :: [answer 3 0])
      sink_open (.list batch_mixed)).sink.bytes_written = 12 :=
  ⟨by decide, by decide, by decide,
   (render_fatal 1024 [answer 2 0, answer (-1) EINTR] [answer 3 0] ENOSPC sink_open
      (.list batch_mixed) (by decide)).1 (by decide) (by decide),
   ((render_fatal 1024 [answer 2 0, answer (-1) EINTR] [answer 3 0] ENOSPC sink_open
      (.list batch_mixed) (by decide)).2 (by decide)).2.1,
   ((render_fatal 1024 [answer 2 0, answer (-1) EINTR] [answer 3 0] ENOSPC sink_open
      (.list batch_mixed) (by decide)).2 (by decide)).2.2.2.2⟩

/-- Inserting a transient failure into a run of the write loop: the exit, the posted error
and the final state stay the same, and the calls are the same but for the failing call. -/
theorem write_loop_insert (IOV_MAX : Nat) (pre post : List Responder) (e : Nat)
    (s : LoopState) (hI : Inv s)
    (he : e = EINTR ∨ ((e = EAGAIN ∨ e = EWOULDBLOCK) ∧ 0 < s.left)) :
    (write_loop IOV_MAX (pre ++ answer (-1) e :: post) s).exit
        = (write_loop IOV_MAX (pre ++ post) s).exit ∧
    (write_loop IOV_MAX (pre ++ answer (-1) e :: post) s).posted
        = (write_loop IOV_MAX (pre ++ post) s).posted ∧
    (write_loop IOV_MAX (pre ++ answer (-1) e :: post) s).state
        = (write_loop IOV_MAX (pre ++ post) s).state ∧
    ((write_loop IOV_MAX (pre ++ answer (-1) e :: post) s).calls
        = (write_loop IOV_MAX (pre ++ post) s).calls ∨
     ∃ before c after,
        (write_loop IOV_MAX (pre ++ post) s).calls = before ++ after ∧
        (write_loop IOV_MAX (pre ++ answer (-1) e :: post) s).calls
          = before ++ c :: after ∧
        before.length = pre.length ∧ c.result = ⟨-1, e⟩ ∧
        (∀ d, after.head? = some d → d.state = c.state ∧ d.n = c.n) ∧
        (after = [] → (write_loop IOV_MAX (pre ++ post) s).state = c.state)) := by
  rw [write_loop_append IOV_MAX pre post, write_loop_append IOV_MAX pre (answer (-1) e :: post)]
  by_cases hp : (write_loop IOV_MAX pre s).exit = .pending
  · rw [if_pos hp, if_pos hp]
    have RI := write_loop_inv IOV_MAX pre s hI
    have he' : e = EINTR ∨ ((e = EAGAIN ∨ e = EWOULDBLOCK)
        ∧ 0 < (write_loop IOV_MAX pre s).state.left) := by
      rcases he with he | ⟨he, hl⟩
      · exact Or.inl he
      · exact Or.inr ⟨he, RI.pending_left hp hl⟩
    rw [write_loop_transient IOV_MAX e post _ he']
    refine ⟨rfl, rfl, rfl, Or.inr ⟨(write_loop IOV_MAX pre s).calls, _,
      (write_loop IOV_MAX post (write_loop IOV_MAX pre s).state).calls, rfl, rfl,
      write_loop_pending_length IOV_MAX pre s hp, rfl, ?_, ?_⟩⟩
    · intro d hd
      exact write_loop_head IOV_MAX post _ d hd
    · intro hnil
      cases post with
      | nil => rfl
      | cons f fs =>
        exfalso
        revert hnil
        cases hbody : loop_body (write_loop IOV_MAX pre s).state
            (f ((write_loop IOV_MAX pre s).state.vecs.take
              (chunk IOV_MAX (write_loop IOV_MAX pre s).state))) with
        | cont s1 => rw [write_loop_cont _ _ _ _ _ hbody]; simp
        | done s1 => rw [write_loop_done _ _ _ _ _ hbody]; simp
        | fail e1 s1 => rw [write_loop_fail _ _ _ _ _ _ hbody]; simp
        | abort why s1 => rw [write_loop_abort _ _ _ _ _ _ hbody]; simp
  · rw [if_neg hp, if_neg hp]
    exact ⟨rfl, rfl, rfl, Or.inl rfl⟩

theorem pipe_insert (before after : List Call) (c : Call) (h : c.result.ret < 0) :
    pipe (before ++ c :: after) = pipe (before ++ after) := by
  rw [pipe_append, pipe_append]
  simp only [pipe]
  rw [accepted_of_neg c h]
  rfl

/-- C8 (amended): for every batch and every behaviour of the primitive, inserting a failing
call before any call changes nothing, when the failure is an interrupted call (`EINTR`), or
a pipe-full failure (`EAGAIN`/`EWOULDBLOCK`) and the batch has at least one byte to transfer:
the final status, the posted error, the loop variables (window, `left`, `bytes_written`), the
unmapping and the bytes accepted by the pipe are the same as without the failure; the calls
are the same but for the failing call, and the call after the failing one is made in the same
state (same window, `left` and `bytes_written`) and with the same count. -/
theorem writev_transient (IOV_MAX : Nat) (pre post : List Responder) (e : Nat)
    (buffers : List GstBuffer) (bw : Nat)
    (he : e = EINTR ∨ ((e = EAGAIN ∨ e = EWOULDBLOCK) ∧ 0 < mapped_size buffers)) :
    (writev IOV_MAX (pre ++ answer (-1) e :: post) buffers bw).outcome
        = (writev IOV_MAX (pre ++ post) buffers bw).outcome ∧
    (writev IOV_MAX (pre ++ answer (-1) e :: post) buffers bw).posted
        = (writev IOV_MAX (pre ++ post) buffers bw).posted ∧
    (writev IOV_MAX (pre ++ answer (-1) e :: post) buffers bw).state
        = (writev IOV_MAX (pre ++ post) buffers bw).state ∧
    (writev IOV_MAX (pre ++ answer (-1) e :: post) buffers bw).bytes_written
        = (writev IOV_MAX (pre ++ post) buffers bw).bytes_written ∧
    (writev IOV_MAX (pre ++ answer (-1) e :: post) buffers bw).unmap_calls
        = (writev IOV_MAX (pre ++ post) buffers bw).unmap_calls ∧
    pipe (writev IOV_MAX (pre ++ answer (-1) e :: post) buffers bw).calls
        = pipe (writev IOV_MAX (pre ++ post) buffers bw).calls ∧
    ((writev IOV_MAX (pre ++ answer (-1) e :: post) buffers bw).calls
        = (writev IOV_MAX (pre ++ post) buffers bw).calls ∨
     ∃ before c after,
        (writev IOV_MAX (pre ++ post) buffers bw).calls = before ++ after ∧
        (writev IOV_MAX (pre ++ answer (-1) e :: post) buffers bw).calls
          = before ++ c :: after ∧
        before.length = pre.length ∧ c.result = ⟨-1, e⟩ ∧
        (∀ d, after.head? = some d → d.state = c.state ∧ d.n = c.n) ∧
        (after = [] →
          (writev IOV_MAX (pre ++ post) buffers bw).state = some c.state)) := by
  have hI := init_state_inv buffers bw
  have he' : e = EINTR ∨ ((e = EAGAIN ∨ e = EWOULDBLOCK)
      ∧ 0 < (init_state buffers bw).left) := by
    rcases he with he | ⟨he, hl⟩
    · exact Or.inl he
    · refine Or.inr ⟨he, ?_⟩
      rw [init_state_left]; exact_mod_cast hl
  obtain ⟨h1, h2, h3, h4⟩ := write_loop_insert IOV_MAX pre post e _ hI he'
  rw [writev_eq, writev_eq]
  refine ⟨h1, h2, congrArg some h3, congrArg LoopState.bytes_written h3, ?_, ?_, ?_⟩
  · show (match (write_loop IOV_MAX (pre ++ answer (-1) e :: post) _).exit with
        | .returned _ => _ | _ => _) = _
    rw [h1]
  · rcases h4 with h4 | ⟨before, c, after, a1, a2, _, a4, _, _⟩
    · exact congrArg pipe h4
    · show pipe (write_loop IOV_MAX (pre ++ answer (-1) e :: post) _).calls
        = pipe (write_loop IOV_MAX (pre ++ post) _).calls
      rw [a1, a2]
      exact pipe_insert before after c (by rw [a4]; exact (show (-1 : Int) < 0 by decide))
  · rcases h4 with h4 | ⟨before, c, after, a1, a2, a3, a4, a5, a6⟩
    · exact Or.inl h4
    · exact Or.inr ⟨before, c, after, a1, a2, a3, a4, a5, fun h => congrArg some (a6 h)⟩

/-- C8, witness: the mixed batch, a transfer in two calls of 2 and 3 bytes, with a pipe-full
failure inserted between them; and an interrupted call followed by a call that accepts
everything, which puts into the pipe what the accepting call alone does. -/
theorem writev_transient_witness :
    (EAGAIN = EINTR ∨
      ((EAGAIN = EAGAIN ∨ EAGAIN = EWOULDBLOCK) ∧ 0 < mapped_size batch_mixed)) ∧
    (writev 1024 ([answer 2 0] ++ answer (-1) EAGAIN :: [answer 3 0]) batch_mixed 0).outcome
      = .returned .GST_FLOW_OK ∧
    (writev 1024 ([answer 2 0] ++ answer (-1) EAGAIN :: [answer 3 0]) batch_mixed 0).outcome
      = (writev 1024 ([answer 2 0] ++ [answer 3 0]) batch_mixed 0).outcome ∧
    pipe (writev 1024 ([answer 2 0] ++ answer (-1) EAGAIN :: [answer 3 0]) batch_mixed 0).calls
      = pipe (writev 1024 ([answer 2 0] ++ [answer 3 0]) batch_mixed 0).calls ∧
    pipe (writev 1024 ([] ++ answer (-1) EINTR :: [accept_all]) batch_mixed 0).calls
      = pipe (writev 1024 ([] ++ [accept_all]) batch_mixed 0).calls ∧
    pipe (writev 1024 ([] ++ [accept_all]) batch_mixed 0).calls = [1, 2, 3, 4, 5] :=
  ⟨by decide, by decide,
   (writev_transient 1024 [answer 2 0] [answer 3 0] EAGAIN batch_mixed 0 (by decide)).1,
   (writev_transient 1024 [answer 2 0] [answer 3 0] EAGAIN batch_mixed 0
      (by decide)).2.2.2.2.2.1,
   (writev_transient 1024 [] [accept_all] EINTR batch_mixed 0 (by decide)).2.2.2.2.2.1,
   by decide⟩

/-- C8, counterexample to the claim as stated: for a batch with no byte to transfer, a fatal
failure of the first call gives `GST_FLOW_ERROR`, but with a pipe-full failure inserted before
it the loop is left at once, the primitive is not called again and the result is
`GST_FLOW_OK`. -/
theorem writev_transient_counterexample :
    (writev 1024 ([] ++ [answer (-1) ENOSPC]) batch_empty 0).outcome
      = .returned .GST_FLOW_ERROR ∧
    (writev 1024 ([] ++ answer (-1) EAGAIN :: [answer (-1) ENOSPC]) batch_empty 0).outcome
      = .returned .GST_FLOW_OK ∧
    (writev 1024 ([] ++ answer (-1) EAGAIN :: [answer (-1) ENOSPC]) batch_empty 0).calls.length
      = 1 := by
  decide

/-! ## Chunking -/

theorem loop_body_window (s : LoopState) (r : SysResult) (hI : Inv s) (s1 : LoopState)
    (h : loop_body s r = .cont s1) (n : Nat) :
    s1.vecs = window_after ⟨s, n, r⟩ := by
  have hleft := hI.left_nonneg
  unfold window_after
  simp only
  by_cases hneg : r.ret < 0
  · rw [if_neg (by omega)]
    by_cases hE : r.errno = EINTR
    · rw [loop_body_eintr s r hneg hE] at h
      cases h; rfl
    · by_cases hA : r.errno = EAGAIN ∨ r.errno = EWOULDBLOCK
      · rw [loop_body_eagain s r hneg hA hleft] at h
        unfold while_left at h
        split at h
        · cases h; rfl
        · cases h
      · have hT : ¬ transient r.errno := by
          unfold transient
          rintro (h | h | h)
          · exact hE h
          · exact hA (Or.inl h)
          · exact hA (Or.inr h)
        rw [loop_body_fatal s r hneg hT hleft] at h
        cases h
  · have h0 : 0 ≤ r.ret := by omega
    by_cases heq : r.ret = s.left
    · rw [loop_body_complete s r h0 heq] at h
      cases h
    · by_cases hlt : r.ret < s.left
      · rw [loop_body_short s r hI h0 hlt] at h
        rw [if_pos ⟨h0, hlt⟩]
        cases h; rfl
      · rw [loop_body_excess s r hleft (by omega)] at h
        rw [if_neg (by omega)]
        unfold while_left at h
        split at h
        · cases h; rfl
        · cases h

/-- From one call to the next the window is advanced by what the call accepted. -/
theorem write_loop_chain (IOV_MAX : Nat) (fs : List Responder) (s : LoopState) (hI : Inv s) :
    (write_loop IOV_MAX fs s).calls.Chain' (fun c d => d.state.vecs = window_after c) := by
  induction fs generalizing s with
  | nil => rw [write_loop_nil]; exact List.chain'_nil
  | cons f fs ih =>
    cases hbody : loop_body s (f (s.vecs.take (chunk IOV_MAX s))) with
    | cont s1 =>
      rw [write_loop_cont _ _ _ _ _ hbody]
      obtain ⟨h1, _, _, _⟩ := loop_body_inv s (f (s.vecs.take (chunk IOV_MAX s))) hI
      rw [List.chain'_cons']
      refine ⟨?_, ih s1 (h1 s1 hbody).1⟩
      intro d hd
      rw [(write_loop_head IOV_MAX fs s1 d hd).1]
      exact loop_body_window s _ hI s1 hbody _
    | done s1 => rw [write_loop_done _ _ _ _ _ hbody]; exact List.chain'_singleton _
    | fail e s1 => rw [write_loop_fail _ _ _ _ _ _ hbody]; exact List.chain'_singleton _
    | abort why s1 => rw [write_loop_abort _ _ _ _ _ _ hbody]; exact List.chain'_singleton _

theorem write_loop_calls_result (IOV_MAX : Nat) (fs : List Responder) (s : LoopState) :
    ∀ c ∈ (write_loop IOV_MAX fs s).calls, ∃ f ∈ fs, c.result = f c.submitted := by
  induction fs generalizing s with
  | nil => intro c hc; cases hc
  | cons f fs ih =>
    cases hbody : loop_body s (f (s.vecs.take (chunk IOV_MAX s))) with
    | cont s1 =>
      rw [write_loop_cont _ _ _ _ _ hbody]
      intro c hm
      rcases List.mem_cons.mp hm with rfl | hm
      · exact ⟨f, List.mem_cons_self _ _, rfl⟩
      · obtain ⟨g, hg, hr⟩ := ih s1 c hm
        exact ⟨g, List.mem_cons_of_mem _ hg, hr⟩
    | done s1 =>
      rw [write_loop_done _ _ _ _ _ hbody]
      intro c hm
      rw [List.mem_singleton.mp hm]
      exact ⟨f, List.mem_cons_self _ _, rfl⟩
    | fail e s1 =>
      rw [write_loop_fail _ _ _ _ _ _ hbody]
      intro c hm
      rw [List.mem_singleton.mp hm]
      exact ⟨f, List.mem_cons_self _ _, rfl⟩
    | abort why s1 =>
      rw [write_loop_abort _ _ _ _ _ _ hbody]
      intro c hm
      rw [List.mem_singleton.mp hm]
      exact ⟨f, List.mem_cons_self _ _, rfl⟩

theorem write_loop_calls_nil (IOV_MAX : Nat) (fs : List Responder) (s : LoopState)
    (h : (write_loop IOV_MAX fs s).calls = []) : (write_loop IOV_MAX fs s).exit = .pending := by
  cases fs with
  | nil => rfl
  | cons f fs =>
    exfalso
    revert h
    cases hbody : loop_body s (f (s.vecs.take (chunk IOV_MAX s))) with
    | cont s1 => rw [write_loop_cont _ _ _ _ _ hbody]; simp
    | done s1 => rw [write_loop_done _ _ _ _ _ hbody]; simp
    | fail e s1 => rw [write_loop_fail _ _ _ _ _ _ hbody]; simp
    | abort why s1 => rw [write_loop_abort _ _ _ _ _ _ hbody]; simp

/-- Accepted bytes that cover the first `n` entries remove at least these entries. -/
theorem skipN_take_length (n : Nat) (w : List iovec) :
    (skipN (lens (w.take n)) w).2.length + min n w.length ≤ w.length := by
  induction w generalizing n with
  | nil => simp [skipN]
  | cons v vs ih =>
    cases n with
    | zero =>
      have := skipN_length (lens ((v :: vs).take 0)) (v :: vs)
      simpa using this
    | succ k =>
      simp only [List.take_succ_cons, lens]
      unfold skipN
      rw [if_pos (by omega)]
      have := ih k
      simp only [Nat.add_sub_cancel_left, List.length_cons]
      omega

/-- Against a primitive that accepts everything submitted, the loop ends with `GST_FLOW_OK`
after at most one call per entry of the window (one call for an empty window). -/
theorem write_loop_accept_all (IOV_MAX : Nat) (hcap : 0 < IOV_MAX) (k : Nat) (s : LoopState)
    (hI : Inv s) (hk : s.vecs.length < k) :
    (write_loop IOV_MAX (List.replicate k accept_all) s).exit = .returned .GST_FLOW_OK ∧
    ((lens (s.vecs.take IOV_MAX) : Int) < s.left →
      2 ≤ (write_loop IOV_MAX (List.replicate k accept_all) s).calls.length) := by
  induction k generalizing s with
  | zero => omega
  | succ k ih =>
    rw [List.replicate_succ]
    have hsum := hI.sum_eq
    have hcnt := hI.count_eq
    have htk := lens_take_le (chunk IOV_MAX s) s.vecs
    have hr : accept_all (s.vecs.take (chunk IOV_MAX s))
        = ⟨(lens (s.vecs.take (chunk IOV_MAX s)) : Int), 0⟩ := rfl
    have hchunk : s.vecs.take (chunk IOV_MAX s) = s.vecs.take IOV_MAX := by
      unfold chunk
      split
      · rfl
      · rw [List.take_of_length_le (by omega), List.take_of_length_le (by omega)]
    by_cases heq : (lens (s.vecs.take (chunk IOV_MAX s)) : Int) = s.left
    · have hb := loop_body_complete s (accept_all (s.vecs.take (chunk IOV_MAX s)))
        (by rw [hr]; simp) (by rw [hr]; exact heq)
      rw [write_loop_done _ _ _ _ _ hb]
      refine ⟨rfl, ?_⟩
      intro hlt
      rw [← hchunk] at hlt
      omega
    · have hlt : (lens (s.vecs.take (chunk IOV_MAX s)) : Int) < s.left := by omega
      have hb := loop_body_short s (accept_all (s.vecs.take (chunk IOV_MAX s))) hI
        (by rw [hr]; simp) (by rw [hr]; exact hlt)
      rw [write_loop_cont _ _ _ _ _ hb]
      obtain ⟨h1, _, _, _⟩ := loop_body_inv s (accept_all (s.vecs.take (chunk IOV_MAX s))) hI
      obtain ⟨hI1, _, _⟩ := h1 _ hb
      have hne : s.vecs ≠ [] := by
        intro hnil
        rw [hnil] at hsum htk
        simp [lens] at hsum htk
        omega
      have hpos : 0 < s.vecs.length := List.length_pos.mpr hne
      have hn : 0 < min (chunk IOV_MAX s) s.vecs.length := by
        unfold chunk
        split <;> omega
      have hshrink : (advance (lens (s.vecs.take (chunk IOV_MAX s))) s.vecs).length
          < s.vecs.length := by
        rw [advance_length _ _ (by omega)]
        have := skipN_take_length (chunk IOV_MAX s) s.vecs
        omega
      have hto : (accept_all (s.vecs.take (chunk IOV_MAX s))).ret.toNat
          = lens (s.vecs.take (chunk IOV_MAX s)) := by
        rw [hr]; simp
      rw [hto] at hb hI1
      have R := ih _ hI1 (by simp only; omega)
      rw [hto]
      refine ⟨R.1, ?_⟩
      intro _
      simp only [List.length_cons]
      have : (write_loop IOV_MAX (List.replicate k accept_all)
          { vecs := advance (lens (s.vecs.take (chunk IOV_MAX s))) s.vecs,
            n_vecs := (advance (lens (s.vecs.take (chunk IOV_MAX s))) s.vecs).length,
            left := s.left - (accept_all (s.vecs.take (chunk IOV_MAX s))).ret,
            bytes_written := s.bytes_written + lens (s.vecs.take (chunk IOV_MAX s)) }).calls
          ≠ [] := by
        intro hnil
        have := write_loop_calls_nil _ _ _ hnil
        rw [R.1] at this
        cases this
      have := List.length_pos.mpr this
      omega

theorem fill_loop_take (n : Nat) (ms : List GstMemory) :
    (fill_loop ms).1.take n = (fill_loop (ms.take n)).1 := by
  induction ms generalizing n with
  | nil => simp [fill_loop]
  | cons m ms ih =>
    cases n with
    | zero => simp [fill_loop]
    | succ k => simp [fill_loop, ih]

/-- C9: for every batch, whatever the number of entries of its transfer vector and the value of
the cap `IOV_MAX`: every call of the primitive passes the count `min (entries in the current
window, IOV_MAX)` and so submits exactly the first that many entries of the current window,
where the window of each call after the first is the window of the call before it advanced by
the bytes that call accepted; and against a primitive that accepts all submitted bytes in
every call (with a cap of at least 1 and more responders than entries) the transfer ends with
`GST_FLOW_OK`, the pipe has received the whole stream in order, `bytes_written` has grown by
its length, and at least two calls were needed whenever the first `IOV_MAX` entries do not
hold all the bytes. -/
theorem writev_chunked (IOV_MAX : Nat) (fs : List Responder) (buffers : List GstBuffer)
    (bw k : Nat) (hcap : 0 < IOV_MAX) (hk : (segments buffers).length < k) :
    (∀ c ∈ (writev IOV_MAX fs buffers bw).calls,
      c.n = min c.state.vecs.length IOV_MAX ∧
      c.submitted = c.state.vecs.take (min c.state.vecs.length IOV_MAX)) ∧
    (writev IOV_MAX fs buffers bw).calls.Chain' (fun c d => d.state.vecs = window_after c) ∧
    (writev IOV_MAX (List.replicate k accept_all) buffers bw).outcome
      = .returned .GST_FLOW_OK ∧
    pipe (writev IOV_MAX (List.replicate k accept_all) buffers bw).calls
      = mapped_stream buffers ∧
    (writev IOV_MAX (List.replicate k accept_all) buffers bw).bytes_written
      = bw + mapped_size buffers ∧
    ((((segments buffers).take IOV_MAX).map (fun m => (mapped_bytes m).length)).sum
        < mapped_size buffers →
      2 ≤ (writev IOV_MAX (List.replicate k accept_all) buffers bw).calls.length) := by
  have hI := init_state_inv buffers bw
  have hn : ∀ c ∈ (writev IOV_MAX fs buffers bw).calls,
      c.n = min c.state.vecs.length IOV_MAX := by
    rw [writev_eq]
    intro c hc
    have h1 := write_loop_calls_chunk IOV_MAX fs _ c hc
    have h2 := ((write_loop_inv IOV_MAX fs _ hI).calls_inv c hc).1.count_eq
    rw [h1]
    unfold chunk
    split <;> omega
  have hlen : (init_state buffers bw).vecs.length < k := by
    simpa [init_state, fill_loop_length] using hk
  obtain ⟨hok, htwo⟩ := write_loop_accept_all IOV_MAX hcap k _ hI hlen
  have hsane : ∀ c ∈ (writev IOV_MAX (List.replicate k accept_all) buffers bw).calls,
      c.sane := by
    rw [writev_eq]
    intro c hc
    obtain ⟨f, hf, hr⟩ := write_loop_calls_result IOV_MAX _ _ c hc
    rw [List.eq_of_mem_replicate hf] at hr
    unfold Call.sane
    intro _
    rw [hr]
    exact le_refl _
  have hok' : (writev IOV_MAX (List.replicate k accept_all) buffers bw).outcome
      = .returned .GST_FLOW_OK := by
    rw [writev_eq]; exact hok
  refine ⟨?_, ?_, hok', writev_ok_stream _ _ _ _ hsane hok',
    writev_ok_count _ _ _ _ hsane hok', ?_⟩
  · intro c hc
    refine ⟨hn c hc, ?_⟩
    unfold Call.submitted
    rw [hn c hc]
  · rw [writev_eq]
    exact write_loop_chain IOV_MAX fs _ hI
  · intro hlt
    rw [writev_eq]
    apply htwo
    rw [init_state_left]
    have : lens ((init_state buffers bw).vecs.take IOV_MAX)
        = (((segments buffers).take IOV_MAX).map (fun m => (mapped_bytes m).length)).sum := by
      simp only [init_state]
      rw [fill_loop_take, fill_loop_lens]
    rw [this]
    exact_mod_cast hlt

/-- C9, witness: five one-byte entries and a cap of 2.  Against the all-accepting primitive
the transfer takes three calls with 2, 2 and 1 entries; and with a cap of 4, after a first
call that accepts 3 of the 4 submitted bytes, the window has 2 entries and the second call
submits 2. -/
theorem writev_chunked_witness :
    0 < 2 ∧ (segments batch_five).length < 6 ∧
    (writev 2 (List.replicate 6 accept_all) batch_five 0).outcome = .returned .GST_FLOW_OK ∧
    pipe (writev 2 (List.replicate 6 accept_all) batch_five 0).calls = [10, 20, 30, 40, 50] ∧
    (writev 2 (List.replicate 6 accept_all) batch_five 0).calls.map
        (fun c => (c.state.vecs.length, c.n)) = [(5, 2), (3, 2), (1, 1)] ∧
    (writev 4 [answer 3 0, answer 2 0] batch_five 0).calls.map
        (fun c => (c.state.vecs.length, c.n)) = [(5, 4), (2, 2)] :=
  ⟨by decide, by decide,
   (writev_chunked 2 [] batch_five 0 6 (by decide) (by decide)).2.2.1,
   (writev_chunked 2 [] batch_five 0 6 (by decide) (by decide)).2.2.2.1,
   by decide, by decide⟩

/-! ## Opening the FIFO -/

/-- C4, the code at the failing input: the target opens as descriptor 5 and is a regular file.
`gst_fifosink_open_file` returns `FALSE` with the not-a-fifo diagnostic, but the descriptor has
been stored in the sink before the check and is neither closed nor reset: the descriptor field
is 5, not the value -1 it had before the call. -/
theorem open_regular_file_keeps_descriptor :
    sink_named.fd = -1 ∧
    (gst_fifosink_open_file env_regular_file sink_named).ok = false ∧
    (gst_fifosink_open_file env_regular_file sink_named).error = some .NOT_FIFO ∧
    (gst_fifosink_open_file env_regular_file sink_named).sink.fd = 5 ∧
    (gst_file_sink_set_location file_uri
      (gst_fifosink_open_file env_regular_file sink_named).sink (some "fifo")).1 = false := by
  decide

theorem atoi_digits_append (ds rest : List Char) (acc : Nat)
    (hd : ∀ c ∈ ds, isdigit c = true) (hr : ∀ c, rest.head? = some c → isdigit c = false) :
    atoi_digits acc (ds ++ rest) = ds.foldl (fun a c => a * 10 + (c.toNat - 48)) acc := by
  induction ds generalizing acc with
  | nil =>
    cases rest with
    | nil => rfl
    | cons c cs =>
      have := hr c rfl
      simp [atoi_digits, this]
  | cons d ds ih =>
    have h1 := hd d (List.mem_cons_self _ _)
    simp only [List.cons_append, atoi_digits, h1, if_true, List.foldl_cons]
    exact ih _ (fun c hc => hd c (List.mem_cons_of_mem _ hc))

theorem isdigit_not_space (c : Char) (h : isdigit c = true) :
    isspace c = false ∧ c ≠ '-' ∧ c ≠ '+' := by
  unfold isdigit at h
  simp only [Bool.and_eq_true, decide_eq_true_eq] at h
  refine ⟨?_, ?_, ?_⟩
  · unfold isspace
    simp only [Bool.or_eq_false_iff, decide_eq_false_iff_not, Bool.and_eq_false_imp,
      decide_eq_true_eq]
    omega
  · rintro rfl
    have : ('-' : Char).toNat = 45 := by decide
    omega
  · rintro rfl
    have : ('+' : Char).toNat = 43 := by decide
    omega

theorem int_of_long_fits (v : Int) (h0 : -2147483648 ≤ v) (h1 : v ≤ 2147483647) :
    int_of_long v = v := by
  unfold int_of_long
  omega

/-- `atoi` of a digit string followed by something that is not a digit is the decimal value of
the digits, saturated to `long` and converted to `int`. -/
theorem atoi_decimal (ds rest : List Char) (hne : ds ≠ []) (hd : ∀ c ∈ ds, isdigit c = true)
    (hr : ∀ c, rest.head? = some c → isdigit c = false) :
    atoi (ds ++ rest) = int_of_long (strtol_value false (decimal ds)) := by
  cases ds with
  | nil => exact absurd rfl hne
  | cons d ds =>
    obtain ⟨h1, h2, h3⟩ := isdigit_not_space d (hd d (List.mem_cons_self _ _))
    unfold atoi
    simp only [List.cons_append, List.dropWhile_cons, h1, if_neg h2, if_neg h3]
    simp only [Bool.false_eq_true, if_false, if_neg h2, if_neg h3]
    rw [← List.cons_append, atoi_digits_append (d :: ds) rest 0 hd hr]
    rfl

/-- Within the range of `int` the conversions change nothing. -/
theorem strtol_value_fits (n : Nat) (h : (n : Int) ≤ INT_MAX) :
    int_of_long (strtol_value false n) = (n : Int) := by
  unfold INT_MAX at h
  unfold strtol_value LONG_MAX
  simp only [Bool.false_eq_true, if_false]
  rw [min_eq_left (by omega)]
  exact int_of_long_fits _ (by omega) h

/-- `atoi` of a string with no digit where the number should start is 0. -/
theorem atoi_no_number (s : List Char) (h : no_number s = true) : atoi s = 0 := by
  unfold no_number after_sign at h
  unfold atoi
  cases hs : s.dropWhile isspace with
  | nil => rfl
  | cons c cs =>
    rw [hs] at h
    simp only at h ⊢
    have hz : ∀ l : List Char,
        (match l with
          | [] => true
          | x :: _ => !isdigit x) = true → atoi_digits 0 l = 0 := by
      intro l hl
      cases l with
      | nil => rfl
      | cons x xs =>
        have : isdigit x = false := by simpa using hl
        simp [atoi_digits, this]
    have z1 : int_of_long (strtol_value true 0) = 0 := by decide
    have z2 : int_of_long (strtol_value false 0) = 0 := by decide
    by_cases h1 : c = '-'
    · rw [if_pos (Or.inl h1)] at h
      rw [if_pos h1, hz cs h]; exact z1
    · by_cases h2 : c = '+'
      · rw [if_pos (Or.inr h2)] at h
        rw [if_neg h1, if_pos h2, hz cs h]; exact z2
      · rw [if_neg (by tauto)] at h
        rw [if_neg h1, if_neg h2, hz (c :: cs) h]; exact z2

theorem fgets_line_digits (ds rest : List Char) (k : Nat) (hk : ds.length < k)
    (hd : ∀ c ∈ ds, isdigit c = true) :
    fgets_line k (ds ++ newline :: rest) = ds ++ [newline] := by
  induction ds generalizing k with
  | nil =>
    cases k with
    | zero => simp at hk
    | succ k =>
      have : newline.toNat = 10 := by decide
      simp [fgets_line, this]
  | cons d ds ih =>
    cases k with
    | zero => simp at hk
    | succ k =>
      have h1 := hd d (List.mem_cons_self _ _)
      have hne : ¬ d.toNat = 10 := by
        unfold isdigit at h1
        simp only [Bool.and_eq_true, decide_eq_true_eq] at h1
        omega
      have := ih k (by simp at hk; omega) (fun c hc => hd c (List.mem_cons_of_mem _ hc))
      simp only [List.cons_append, fgets_line, if_neg hne]
      exact congrArg (List.cons d) this

theorem open_ok_setpipe (env : OpenEnv) (sink : GstFifoSink)
    (hok : (gst_fifosink_open_file env sink).ok = true) :
    (gst_fifosink_open_file env sink).setpipe_sz = some (pipe_size_request env) := by
  unfold gst_fifosink_open_file at hok ⊢
  split at hok
  · cases hok
  · simp only at hok ⊢
    split at hok
    · cases hok
    · split at hok
      · rename_i h1 h2 h3
        rw [if_neg h1, if_neg h2, if_pos h3]
      · cases hok

/-- C5 (amended): for every open of a confirmed FIFO a capacity is requested from the kernel,
and it is 1,048,576 whenever the pipe-max-size source cannot be opened or yields no line;
whenever a line is read it is `atoi` of that line: the value of the number when the line is a
decimal number that fits an `int` (at most 2147483647), the `int` conversion of the value
saturated to `long` when the number is larger, and 0 when no number stands at the start of the
line. -/
theorem open_fifo_capacity (env : OpenEnv) (sink : GstFifoSink)
    (hok : (gst_fifosink_open_file env sink).ok = true) :
    (env.pipe_max_size = none →
      (gst_fifosink_open_file env sink).setpipe_sz = some 1048576) ∧
    (env.pipe_max_size = some [] →
      (gst_fifosink_open_file env sink).setpipe_sz = some 1048576) ∧
    (∀ content, content ≠ [] → env.pipe_max_size = some content →
      (gst_fifosink_open_file env sink).setpipe_sz
        = some (atoi (fgets_line 127 content))) ∧
    (∀ ds rest, ds ≠ [] → ds.length < 127 → (∀ c ∈ ds, isdigit c = true) →
      env.pipe_max_size = some (ds ++ newline :: rest) →
      ((decimal ds : Int) ≤ INT_MAX →
        (gst_fifosink_open_file env sink).setpipe_sz = some (decimal ds : Int)) ∧
      (gst_fifosink_open_file env sink).setpipe_sz
        = some (int_of_long (min (decimal ds : Int) LONG_MAX))) ∧
    (∀ content, content ≠ [] → no_number (fgets_line 127 content) = true →
      env.pipe_max_size = some content →
      (gst_fifosink_open_file env sink).setpipe_sz = some 0) := by
  rw [open_ok_setpipe env sink hok]
  have hline : ∀ content, content ≠ [] → env.pipe_max_size = some content →
      pipe_size_request env = atoi (fgets_line 127 content) := by
    intro content hne hc
    unfold pipe_size_request fgets
    rw [hc]
    simp only [if_neg hne]
  refine ⟨?_, ?_, ?_, ?_, ?_⟩
  · intro h
    unfold pipe_size_request
    rw [h]; rfl
  · intro h
    unfold pipe_size_request fgets
    rw [h]; rfl
  · intro content hne hc
    rw [hline content hne hc]
  · intro ds rest hne hlen hd hc
    have hat : pipe_size_request env = int_of_long (strtol_value false (decimal ds)) := by
      rw [hline _ (by simp) hc, fgets_line_digits ds rest 127 hlen hd]
      exact atoi_decimal ds [newline] hne hd (by intro c hc; cases hc; decide)
    constructor
    · intro hfit
      rw [hat, strtol_value_fits _ hfit]
    · rw [hat]; rfl
  · intro content hne hno hc
    rw [hline content hne hc, atoi_no_number _ hno]

/-- C5, witness: the FIFO opens and the pipe-max-size file reads `65536`, which is requested;
and when it reads `2147483648`, one more than `INT_MAX`, the request is -2147483648. -/
theorem open_fifo_capacity_witness :
    (gst_fifosink_open_file env_fifo sink_named).ok = true ∧
    (gst_fifosink_open_file env_fifo sink_named).setpipe_sz = some 65536 ∧
    (gst_fifosink_open_file env_fifo_big sink_named).ok = true ∧
    (gst_fifosink_open_file env_fifo_big sink_named).setpipe_sz = some (-2147483648) :=
  ⟨by decide,
   ((open_fifo_capacity env_fifo sink_named (by decide)).2.2.2.1
      ['6', '5', '5', '3', '6'] [] (by decide) (by decide) (by decide) rfl).1 (by decide),
   by decide,
   ((open_fifo_capacity env_fifo_big sink_named (by decide)).2.2.2.1
      ['2', '1', '4', '7', '4', '8', '3', '6', '4', '8'] [] (by decide) (by decide)
      (by decide) rfl).2⟩

/-- C5, counterexample to the claim as stated: the FIFO opens, the pipe-max-size file reads
`abc`, which is no number, and the capacity requested is 0, not 1,048,576. -/
theorem open_fifo_capacity_counterexample :
    (gst_fifosink_open_file env_malformed sink_named).ok = true ∧
    no_number ['a', 'b', 'c', newline] = true ∧
    (gst_fifosink_open_file env_malformed sink_named).setpipe_sz = some 0 ∧
    (gst_fifosink_open_file env_malformed sink_named).setpipe_sz ≠ some 1048576 := by
  decide

/-! ## The location property -/

theorem start_ok_fd (env : OpenEnv) (sink : GstFifoSink)
    (hok : (gst_fifosink_start env sink).ok = true) :
    (gst_fifosink_start env sink).sink.fd = env.open_ret := by
  unfold gst_fifosink_start gst_fifosink_open_file at hok ⊢
  split at hok
  · cases hok
  · rename_i h1
    rw [if_neg h1]
    simp only at hok ⊢
    split at hok
    · cases hok
    · rename_i h2
      rw [if_neg h2]
      split <;> rfl

theorem set_location_rejects (to_uri : String → Option String) (sink : GstFifoSink)
    (location : Option String) (h : 2 < sink.fd) :
    gst_file_sink_set_location to_uri sink location = (false, sink) := by
  unfold gst_file_sink_set_location
  rw [if_pos h]

theorem set_location_accepts (to_uri : String → Option String) (sink : GstFifoSink)
    (location : Option String) (h : sink.fd ≤ 2) :
    (gst_file_sink_set_location to_uri sink location).1 = true ∧
    (gst_file_sink_set_location to_uri sink location).2.filename = location ∧
    (gst_file_sink_set_location to_uri sink location).2.fd = sink.fd ∧
    (gst_file_sink_set_location to_uri sink location).2.bytes_written
      = sink.bytes_written := by
  unfold gst_file_sink_set_location
  rw [if_neg (by omega)]
  cases location <;> exact ⟨rfl, rfl, rfl, rfl⟩

/-- C7 (amended): while a handle is open on a descriptor number above 2 (a successful start
has happened and the descriptor field has not changed since), setting the target path is
rejected and the sink, with its stored path, left as it is; in every state whose descriptor
field is at most 2 the set succeeds and stores the new value, in particular in the initial
state and after a stop that closed a descriptor, where the field is -1. -/
theorem set_location_guard (to_uri : String → Option String) (sink : GstFifoSink)
    (location : Option String) (env : OpenEnv) :
    ((gst_fifosink_start env sink).ok = true → 2 < env.open_ret →
      ∀ later : GstFifoSink, later.fd = (gst_fifosink_start env sink).sink.fd →
        gst_file_sink_set_location to_uri later location = (false, later)) ∧
    (sink.fd ≤ 2 →
      (gst_file_sink_set_location to_uri sink location).1 = true ∧
      (gst_file_sink_set_location to_uri sink location).2.filename = location ∧
      (gst_file_sink_set_location to_uri sink location).2.fd = sink.fd ∧
      (gst_file_sink_set_location to_uri sink location).2.bytes_written
        = sink.bytes_written) ∧
    ((gst_file_sink_set_location to_uri gst_fifosink_init location).1 = true ∧
      (gst_file_sink_set_location to_uri gst_fifosink_init location).2.filename
        = location) ∧
    (0 < sink.fd →
      (gst_fifosink_stop sink).2.fd = -1 ∧
      (gst_file_sink_set_location to_uri (gst_fifosink_stop sink).2 location).1 = true ∧
      (gst_file_sink_set_location to_uri (gst_fifosink_stop sink).2 location).2.filename
        = location) := by
  refine ⟨?_, set_location_accepts to_uri sink location, ?_, ?_⟩
  · intro hok hfd later hl
    exact set_location_rejects to_uri later location
      (by rw [hl, start_ok_fd env sink hok]; exact hfd)
  · have := set_location_accepts to_uri gst_fifosink_init location (by decide)
    exact ⟨this.1, this.2.1⟩
  · intro hpos
    have hfd : (gst_fifosink_stop sink).2.fd = -1 := by
      unfold gst_fifosink_stop gst_fifosink_close_file
      rw [if_pos hpos]
    have := set_location_accepts to_uri (gst_fifosink_stop sink).2 location
      (by rw [hfd]; decide)
    exact ⟨hfd, this.1, this.2.1⟩

/-- C7, witness: the sink is started on a FIFO that opens as descriptor 5; a new location is
rejected and the path stays; after the stop the new location is stored. -/
theorem set_location_guard_witness :
    (gst_fifosink_start env_fifo sink_named).ok = true ∧ (2 : Int) < env_fifo.open_ret ∧
    gst_file_sink_set_location file_uri (gst_fifosink_start env_fifo sink_named).sink
        (some "other")
      = (false, (gst_fifosink_start env_fifo sink_named).sink) ∧
    (gst_fifosink_start env_fifo sink_named).sink.filename = some "target" ∧
    (gst_file_sink_set_location file_uri
        (gst_fifosink_stop (gst_fifosink_start env_fifo sink_named).sink).2
        (some "other")).2.filename = some "other" :=
  ⟨by decide, by decide,
   (set_location_guard file_uri sink_named (some "other") env_fifo).1
      (by decide) (by decide) _ rfl,
   by decide,
   ((set_location_guard file_uri (gst_fifosink_start env_fifo sink_named).sink
      (some "other") env_fifo).2.2.2 (by decide)).2.2⟩

/-- C7, counterexample to the claim as stated: the sink is started on a FIFO that opens as
descriptor 2, so a handle is open; a new location is accepted all the same and replaces the
stored path. -/
theorem set_location_guard_counterexample :
    (gst_fifosink_start env_fifo_low sink_named).ok = true ∧
    (gst_fifosink_start env_fifo_low sink_named).sink.fd = 2 ∧
    (gst_fifosink_start env_fifo_low sink_named).sink.filename = some "target" ∧
    (gst_file_sink_set_location file_uri (gst_fifosink_start env_fifo_low sink_named).sink
        (some "other")).1 = true ∧
    (gst_file_sink_set_location file_uri (gst_fifosink_start env_fifo_low sink_named).sink
        (some "other")).2.filename = some "other" := by
  decide

/-- C10, witness: a run over the mixed batch with a short call, a call that returns more than
was left to write, and an interrupted call: no abort, and in each call the window adds up to
`left`. -/
theorem writev_loop_invariant_witness :
    (writev 2 [answer 1 0, answer 9 0, answer (-1) EINTR] batch_mixed 0).outcome = .pending ∧
    (writev 2 [answer 1 0, answer 9 0, answer (-1) EINTR] batch_mixed 0).calls.map
        (fun c => (lens c.state.vecs, c.state.left, c.state.vecs.length))
      = [(5, 5, 4), (4, 4, 4), (4, 4, 4)] ∧
    ∀ c ∈ (writev 2 [answer 1 0, answer 9 0, answer (-1) EINTR] batch_mixed 0).calls,
      (lens c.state.vecs : Int) = c.state.left ∧ c.state.n_vecs = c.state.vecs.length ∧
      (0 < c.state.left → c.state.vecs ≠ []) :=
  ⟨by decide, by decide,
   (writev_loop_invariant 2 [answer 1 0, answer 9 0, answer (-1) EINTR] batch_mixed 0).2.1⟩

end FifoSink
